import Mathlib

/-!
Shallow embedding of the btc-mnemonic-encryptor front-end core: the mnemonic
validator and formatter (src/src/utils/validation.js and the duplicated page
script in src/unnamed/part_002), the decryption format sniff
(performDecryption), the suggested-filename construction, the embedded BIP39
wordlist literal, and a spec-modelled encryption/decryption pipeline for the
Tauri backend commands that are not part of the supplied sources.

JavaScript strings are modelled as Lean `String`s (lists of characters);
binary strings and byte buffers are `List Nat` with every element below 256.
`String.toLowerCase` is modelled per character by `Char.toLower`, which agrees
with JavaScript on the ASCII range; every non-ASCII character is erased to a
space or an underscore by the normalizations studied here before it could be
observed, except for exotic case mappings that JavaScript alone applies.
All embedded functions are pure and total, so determinism and absence of
exceptions and of state mutation are inherent in the model.
-/

/-! ## JavaScript character classes -/

/-- ASCII upper-case letter, the regex range A-Z. -/
def isAsciiUpperCh (c : Char) : Bool :=
  decide (65 ≤ c.toNat) && decide (c.toNat ≤ 90)

/-- ASCII lower-case letter, the regex range a-z. -/
def isAsciiLowerCh (c : Char) : Bool :=
  decide (97 ≤ c.toNat) && decide (c.toNat ≤ 122)

/-- ASCII digit, the regex range 0-9. -/
def isDigitCh (c : Char) : Bool :=
  decide (48 ≤ c.toNat) && decide (c.toNat ≤ 57)

/-- The JavaScript regex class \w, that is [A-Za-z0-9_]. -/
def isWordCh (c : Char) : Bool :=
  isAsciiUpperCh c || isAsciiLowerCh c || isDigitCh c || decide (c = '_')

/-- ASCII alphanumeric characters: the complement of the regex class [\W_]. -/
def isAlnumCh (c : Char) : Bool :=
  isAsciiUpperCh c || isAsciiLowerCh c || isDigitCh c

/-- The JavaScript regex class \s: tab, line feed, vertical tab, form feed,
carriage return, space, and the Unicode white space code points. -/
def isJsSpaceCh (c : Char) : Bool :=
  let n := c.toNat
  decide (9 ≤ n) && decide (n ≤ 13) || decide (n = 32) || decide (n = 160) ||
  decide (n = 5760) || decide (8192 ≤ n) && decide (n ≤ 8202) ||
  decide (n = 8232) || decide (n = 8233) || decide (n = 8239) ||
  decide (n = 8287) || decide (n = 12288) || decide (n = 65279)

/-- Characters that can appear in a formatted seed phrase: lower-case ASCII
letters, digits, and the plain space. -/
def tameCh (c : Char) : Bool :=
  isAsciiLowerCh c || isDigitCh c || decide (c = ' ')

/-- Model of JavaScript String.toLowerCase, applied character by character. -/
def lowerStr (s : String) : String :=
  String.mk (s.data.map Char.toLower)

/-! ## Regex replacement and trimming primitives -/

/-- Worker for the global regex replacement of every maximal run of characters
satisfying p by the single character r; the flag records whether the previous
character belonged to a run. -/
def collapseAux (p : Char → Bool) (r : Char) : Bool → List Char → List Char
  | _, [] => []
  | inRun, c :: cs =>
    if p c then
      if inRun then collapseAux p r true cs
      else r :: collapseAux p r true cs
    else c :: collapseAux p r false cs

/-- Global regex replacement of every maximal run of characters satisfying p
by the single character r, as in .replace(/X+/g, r). -/
def collapseRuns (p : Char → Bool) (r : Char) (l : List Char) : List Char :=
  collapseAux p r false l

/-- Model of JavaScript String.trim: remove white space from both ends. -/
def trimData (l : List Char) : List Char :=
  ((l.dropWhile isJsSpaceCh).reverse.dropWhile isJsSpaceCh).reverse

/-- Worker for splitting a string at white-space runs, dropping empty pieces:
the combined effect of split at the regex \s+ followed by the filter that
keeps only words of positive length. -/
def wordsAux (cur : List Char) : List Char → List String
  | [] => if cur.isEmpty then [] else [String.mk cur.reverse]
  | c :: cs =>
    if isJsSpaceCh c then
      if cur.isEmpty then wordsAux [] cs
      else String.mk cur.reverse :: wordsAux [] cs
    else wordsAux (c :: cur) cs

/-- The list of white-space separated non-empty words of a string. -/
def wordsOf (s : String) : List String :=
  wordsAux [] s.data

/-- Model of JavaScript Array.join with a separator. -/
def joinSep (sep : String) : List String → String
  | [] => ""
  | [w] => w
  | w :: rest => w ++ sep ++ joinSep sep rest

/-! ## The mnemonic formatter and validator (src/src/utils/validation.js) -/

/-- Embedding of formatSeedPhrase: lower-case, replace every maximal run
matching [\W_]+ by a single space, replace every white-space run by a single
space, and trim; the empty string is returned unchanged by the falsy guard. -/
def formatSeedPhrase (s : String) : String :=
  if s = "" then "" else
  String.mk (trimData (collapseRuns isJsSpaceCh ' '
    (collapseRuns (fun c => !(isAlnumCh c)) ' ' (s.data.map Char.toLower))))

/-- Embedding of the basic formatting chain inside formatMnemonic (unnamed
part_002): lower-case, replace each character matching [^\w\s] by a space,
replace every white-space run by a single space, and trim. -/
def formatMnemonicBasic (s : String) : String :=
  String.mk (trimData (collapseRuns isJsSpaceCh ' '
    ((s.data.map Char.toLower).map
      (fun c => if !(isWordCh c) && !(isJsSpaceCh c) then ' ' else c))))

/-- Structured validation result, the shape {isValid, message}. -/
structure ValidationResult where
  isValid : Bool
  message : String
deriving DecidableEq

/-- The allowed BIP39 word counts. -/
def allowedWordCounts : List Nat := [12, 15, 18, 21, 24]

/-- Embedding of validateSeedPhraseStructure. The wordlist parameter wl models
window.bip39Words; the undefined and the empty wordlist are both modelled by
the empty list, matching the guard in the source. -/
def validateSeedPhraseStructure (wl : List String) (seedPhrase : String) :
    ValidationResult :=
  if seedPhrase = "" then ⟨false, "No seed phrase provided"⟩
  else
    let words := wordsOf seedPhrase
    let wordCount := words.length
    if !(allowedWordCounts.contains wordCount) then
      ⟨false, "Invalid word count: " ++ toString wordCount ++
        ". Expected 12, 15, 18, 21, or 24 words."⟩
    else if wl.isEmpty then
      ⟨false, toString wordCount ++
        " words detected. BIP39 wordlist loading... Please wait."⟩
    else
      let invalidWords := words.filter (fun w => !(wl.contains (lowerStr w)))
      if !invalidWords.isEmpty then
        ⟨false, "Invalid BIP39 words: " ++ joinSep ", " (invalidWords.take 3) ++
          (if invalidWords.length > 3 then
            " (+" ++ toString (invalidWords.length - 3) ++ " more)"
          else "")⟩
      else ⟨true, "✅ Valid " ++ toString wordCount ++
        "-word BIP39 seed phrase"⟩

/-- Embedding of the word checks of the duplicated page-script validateMnemonic
(unnamed part_002): the same word-count test, then a message joining every
invalid word; this copy has no empty-wordlist guard. -/
def validateMnemonicCore (wl : List String) (mnemonic : String) :
    ValidationResult :=
  let words := wordsOf mnemonic
  let wordCount := words.length
  if !(allowedWordCounts.contains wordCount) then
    ⟨false, "Invalid word count: " ++ toString wordCount ++
      ". Expected 12, 15, 18, 21, or 24 words."⟩
  else
    let invalidWords := words.filter (fun w => !(wl.contains (lowerStr w)))
    if !invalidWords.isEmpty then
      ⟨false, "Invalid words: " ++ joinSep ", " invalidWords⟩
    else ⟨true, toString wordCount ++ " words detected - basic validation passed"⟩

/-! ## Suggested filename construction (unnamed part_001) -/

/-- The filename-safe character class [a-zA-Z0-9_-]. -/
def isFilenameSafeCh (c : Char) : Bool :=
  isAsciiLowerCh c || isAsciiUpperCh c || isDigitCh c ||
  decide (c = '_') || decide (c = '-')

/-- Embedding of .replace(/[^a-zA-Z0-9_-]/g, \x27_\x27): every character
outside the safe class becomes an underscore. -/
def sanitizeFilenamePart (s : String) : String :=
  String.mk (s.data.map (fun c => if isFilenameSafeCh c then c else '_'))

/-- Embedding of the suggested-filename construction in
performEncryptionWithWalletLabel: sanitized label, underscore, lower-cased and
sanitized wallet type, underscore, the ISO date, and the .bin extension. -/
def buildSuggestedFilename (label walletType date : String) : String :=
  sanitizeFilenamePart label ++ "_" ++ sanitizeFilenamePart (lowerStr walletType)
    ++ "_" ++ date ++ ".bin"

/-! ## Base64: the forgiving decode of atob and the encode of btoa -/

/-- Value of a base64 alphabet character, none outside the alphabet. -/
def b64CharVal (c : Char) : Option Nat :=
  let n := c.toNat
  if 65 ≤ n ∧ n ≤ 90 then some (n - 65)
  else if 97 ≤ n ∧ n ≤ 122 then some (n - 71)
  else if 48 ≤ n ∧ n ≤ 57 then some (n + 4)
  else if n = 43 then some 62
  else if n = 47 then some 63
  else none

/-- Base64 alphabet character of a sextet value. -/
def b64Char (v : Nat) : Char :=
  if v < 26 then Char.ofNat (v + 65)
  else if v < 52 then Char.ofNat (v + 71)
  else if v < 62 then Char.ofNat (v - 4)
  else if v = 62 then '+' else '/'

/-- ASCII white space removed by the forgiving base64 decode. -/
def isB64AsciiWs (c : Char) : Bool :=
  let n := c.toNat
  decide (n = 9) || decide (n = 10) || decide (n = 12) ||
  decide (n = 13) || decide (n = 32)

/-- Padding removal of the forgiving base64 decode: when the length is a
multiple of four, up to two trailing equals signs are removed. -/
def stripPadding (l : List Char) : List Char :=
  if l.length % 4 = 0 then
    if l.getLast? = some '=' then
      if l.dropLast.getLast? = some '=' then l.dropLast.dropLast
      else l.dropLast
    else l
  else l

/-- Translate every character to its sextet value, failing on any character
outside the base64 alphabet. -/
def charsToSextets : List Char → Option (List Nat)
  | [] => some []
  | c :: cs =>
    match b64CharVal c, charsToSextets cs with
    | some v, some vs => some (v :: vs)
    | _, _ => none

/-- Reassemble bytes from sextets, four at a time; a final group of two or
three sextets yields one or two bytes, discarding the leftover bits. -/
def sextetsToBytes : List Nat → List Nat
  | [] => []
  | [_] => []
  | [a, b] => [a * 4 + b / 16]
  | [a, b, c] => [a * 4 + b / 16, b % 16 * 16 + c / 4]
  | a :: b :: c :: d :: rest =>
    (a * 4 + b / 16) :: (b % 16 * 16 + c / 4) :: (c % 4 * 64 + d) ::
      sextetsToBytes rest

/-- Split bytes into sextets, three bytes to four sextets; a final group of
one or two bytes yields two or three sextets padded with zero bits. -/
def bytesToSextets : List Nat → List Nat
  | [] => []
  | [x] => [x / 4, x % 4 * 16]
  | [x, y] => [x / 4, x % 4 * 16 + y / 16, y % 16 * 4]
  | x :: y :: z :: rest =>
    (x / 4) :: (x % 4 * 16 + y / 16) :: (y % 16 * 4 + z / 64) :: (z % 64) ::
      bytesToSextets rest

/-- Model of JavaScript atob, the forgiving base64 decode: remove ASCII white
space, strip permitted padding, reject a residue length of one modulo four and
any character outside the alphabet, then decode to bytes. -/
def atob (s : String) : Option (List Nat) :=
  let t := stripPadding (s.data.filter (fun c => !(isB64AsciiWs c)))
  if t.length % 4 = 1 then none
  else
    match charsToSextets t with
    | none => none
    | some vs => some (sextetsToBytes vs)

/-- Model of JavaScript btoa: encode bytes in the base64 alphabet and pad the
final group with equals signs. -/
def btoa (bytes : List Nat) : String :=
  String.mk ((bytesToSextets bytes).map b64Char) ++
    (if bytes.length % 3 = 1 then "==" else if bytes.length % 3 = 2 then "=" else "")

/-! ## The decryption format sniff (performDecryption) -/

/-- Byte values of the ASCII magic header AESADV01. -/
def magicBytes : List Nat := [65, 69, 83, 65, 68, 86, 48, 49]

/-- The two decryption back ends the sniff can route to. -/
inductive DecryptRoute where
  | advanced
  | standard
deriving DecidableEq

/-- Embedding of the format detection in performDecryption: base64-decode the
input and compare the first eight characters with the magic header; a decode
failure or an absent magic selects the standard format. -/
def sniffIsAdvanced (s : String) : Bool :=
  match atob s with
  | some data => decide (8 ≤ data.length) && decide (data.take 8 = magicBytes)
  | none => false

/-- The back end performDecryption invokes for a given input string. -/
def performDecryptionRoute (s : String) : DecryptRoute :=
  if sniffIsAdvanced s then DecryptRoute.advanced else DecryptRoute.standard

/-- The BIP39 wordlist literal embedded in loadBIP39WordList (unnamed part_002,
transcribed entry for entry in order). -/
def bip39Words : List String := [
  "abandon", "ability", "able", "about", "above", "absent", "absorb", "abstract", "absurd", "abuse",
  "access", "accident", "account", "accuse", "achieve", "acid", "acoustic", "acquire", "across", "act",
  "action", "actor", "actress", "actual", "adapt", "add", "addict", "address", "adjust", "admit",
  "adult", "advance", "advice", "aerobic", "affair", "afford", "afraid", "again", "age", "agent",
  "agree", "ahead", "aim", "air", "airport", "aisle", "alarm", "album", "alcohol", "alert",
  "alien", "all", "alley", "allow", "almost", "alone", "alpha", "already", "also", "alter",
  "always", "amateur", "amazing", "among", "amount", "amused", "analyst", "anchor", "ancient", "anger",
  "angle", "angry", "animal", "ankle", "announce", "annual", "another", "answer", "antenna", "antique",
  "anxiety", "any", "apart", "apology", "appear", "apple", "approve", "april", "arcade", "arch",
  "arctic", "area", "arena", "argue", "arm", "armed", "armor", "army", "around", "arrange",
  "arrest", "arrive", "arrow", "art", "artefact", "artist", "artwork", "ask", "aspect", "assault",
  "asset", "assist", "assume", "asthma", "athlete", "atom", "attack", "attend", "attitude", "attract",
  "auction", "audit", "august", "aunt", "author", "auto", "autumn", "average", "avocado", "avoid",
  "awake", "aware", "away", "awesome", "awful", "awkward", "axis", "baby", "bachelor", "bacon",
  "badge", "bag", "balance", "balcony", "ball", "bamboo", "banana", "banner", "bar", "barely",
  "bargain", "barrel", "base", "basic", "basket", "battle", "beach", "bean", "beauty", "because",
  "become", "beef", "before", "begin", "behave", "behind", "believe", "below", "belt", "bench",
  "benefit", "best", "betray", "better", "between", "beyond", "bicycle", "bid", "bike", "bind",
  "biology", "bird", "birth", "bitter", "black", "blade", "blame", "blanket", "blast", "bleak",
  "bless", "blind", "blood", "blossom", "blow", "blue", "blur", "blush", "board", "boat",
  "body", "boil", "bomb", "bone", "bonus", "book", "boost", "border", "boring", "borrow",
  "boss", "bottom", "bounce", "box", "boy", "bracket", "brain", "brand", "brass", "brave",
  "bread", "breeze", "brick", "bridge", "brief", "bright", "bring", "brisk", "broccoli", "broken",
  "bronze", "broom", "brother", "brown", "brush", "bubble", "buddy", "budget", "buffalo", "build",
  "bulb", "bulk", "bullet", "bundle", "bunker", "burden", "burger", "burst", "bus", "business",
  "busy", "butter", "buyer", "buzz", "cabbage", "cabin", "cable", "cactus", "cage", "cake",
  "call", "calm", "camera", "camp", "can", "canal", "cancel", "candy", "cannon", "canoe",
  "canvas", "canyon", "capable", "capital", "captain", "car", "carbon", "card", "care", "career",
  "careful", "careless", "cargo", "carpet", "carry", "cart", "case", "cash", "casino", "cast",
  "casual", "cat", "catalog", "catch", "category", "cattle", "caught", "cause", "caution", "cave",
  "ceiling", "celery", "cement", "census", "century", "cereal", "certain", "chair", "chalk", "champion",
  "change", "chaos", "chapter", "charge", "chase", "chat", "cheap", "check", "cheese", "chef",
  "cherry", "chest", "chicken", "chief", "child", "chimney", "choice", "choose", "chronic", "chuckle",
  "chunk", "churn", "cigar", "cinnamon", "circle", "citizen", "city", "civil", "claim", "clamp",
  "clarify", "claw", "clay", "clean", "clerk", "clever", "click", "client", "cliff", "climb",
  "clinic", "clip", "clock", "clog", "close", "cloth", "cloud", "clown", "club", "clump",
  "cluster", "clutch", "coach", "coast", "coconut", "code", "coffee", "coil", "coin", "collect",
  "color", "column", "combine", "come", "comfort", "comic", "common", "company", "concert", "conduct",
  "confirm", "congress", "connect", "consider", "control", "convince", "cook", "cool", "copper", "copy",
  "coral", "core", "corn", "correct", "cost", "cotton", "couch", "country", "couple", "course",
  "cousin", "cover", "coyote", "crack", "cradle", "craft", "cram", "crane", "crash", "crater",
  "crawl", "crazy", "cream", "credit", "creek", "crew", "cricket", "crime", "crisp", "critic",
  "crop", "cross", "crouch", "crowd", "crucial", "cruel", "cruise", "crumble", "crunch", "crush",
  "cry", "crystal", "cube", "culture", "cup", "cupboard", "curious", "current", "curtain", "curve",
  "cushion", "custom", "cute", "cycle", "dad", "damage", "damp", "dance", "danger", "daring",
  "dash", "daughter", "dawn", "day", "deal", "debate", "debris", "decade", "december", "decide",
  "decline", "decorate", "decrease", "deer", "defense", "define", "defy", "degree", "delay", "deliver",
  "demand", "demise", "denial", "dentist", "deny", "depart", "depend", "deposit", "depth", "deputy",
  "derive", "describe", "desert", "design", "desk", "despair", "destroy", "detail", "detect", "device",
  "devote", "diagram", "dial", "diamond", "diary", "dice", "diesel", "diet", "differ", "digital",
  "dignity", "dilemma", "dinner", "dinosaur", "direct", "dirt", "disagree", "discover", "disease", "dish",
  "dismiss", "disorder", "display", "distance", "divert", "divide", "divorce", "dizzy", "doctor", "document",
  "dog", "doll", "dolphin", "domain", "donate", "donkey", "donor", "door", "dose", "double",
  "dove", "draft", "dragon", "drama", "drape", "draw", "dream", "dress", "drift", "drill",
  "drink", "drip", "drive", "drop", "drum", "dry", "duck", "dumb", "dune", "during",
  "dust", "dutch", "duty", "dwarf", "dynamic", "eager", "eagle", "early", "earn", "earth",
  "easily", "east", "easy", "echo", "ecology", "economy", "edge", "edit", "educate", "effort",
  "egg", "eight", "either", "elbow", "elder", "electric", "elegant", "element", "elephant", "elevator",
  "elite", "else", "embark", "embody", "embrace", "emerge", "emotion", "employ", "empower", "empty",
  "enable", "enact", "end", "endless", "endorse", "enemy", "energy", "enforce", "engage", "engine",
  "enhance", "enjoy", "enlist", "enough", "enrich", "enroll", "ensure", "enter", "entire", "entry",
  "envelope", "episode", "equal", "equip", "era", "erase", "erode", "erosion", "error", "erupt",
  "escape", "essay", "essence", "estate", "eternal", "ethics", "evidence", "evil", "evoke", "evolve",
  "exact", "example", "excess", "exchange", "excite", "exclude", "excuse", "execute", "exercise", "exhale",
  "exhibit", "exile", "exist", "exit", "exotic", "expand", "expect", "expire", "explain", "expose",
  "express", "extend", "extra", "eye", "eyebrow", "fabric", "face", "faculty", "fade", "faint",
  "faith", "fall", "false", "fame", "family", "famous", "fan", "fancy", "fantasy", "farm",
  "fashion", "fat", "fatal", "father", "fatigue", "fault", "favorite", "feature", "february", "federal",
  "fee", "feed", "feel", "female", "fence", "festival", "fetch", "fever", "few", "fiber",
  "fiction", "field", "figure", "file", "fill", "film", "filter", "final", "find", "fine",
  "finger", "finish", "fire", "firm", "first", "fiscal", "fish", "fit", "fitness", "fix",
  "flag", "flame", "flat", "flavor", "flee", "flight", "flip", "float", "flock", "floor",
  "flower", "fluid", "flush", "fly", "foam", "focus", "fog", "foil", "fold", "follow",
  "food", "foot", "force", "forest", "forget", "fork", "fortune", "forum", "forward", "fossil",
  "foster", "found", "fox", "frame", "frequent", "fresh", "friend", "fringe", "frog", "front",
  "frost", "frown", "frozen", "fruit", "fuel", "fun", "funny", "furnace", "fury", "future",
  "gadget", "gain", "galaxy", "gallery", "game", "gap", "garage", "garbage", "garden", "garlic",
  "garment", "gas", "gasp", "gate", "gather", "gauge", "gaze", "general", "genius", "genre",
  "gentle", "genuine", "gesture", "ghost", "giant", "gift", "giggle", "ginger", "giraffe", "girl",
  "give", "glad", "glance", "glare", "glass", "glide", "glimpse", "globe", "gloom", "glory",
  "glove", "glow", "glue", "goat", "goddess", "gold", "good", "goose", "gorilla", "gospel",
  "gossip", "govern", "gown", "grab", "grace", "grain", "grant", "grape", "grass", "gravity",
  "great", "green", "grid", "grief", "grit", "grocery", "group", "grow", "grunt", "guard",
  "guess", "guide", "guilt", "guitar", "gun", "gym", "habit", "hair", "half", "hammer",
  "hamster", "hand", "happy", "harbor", "hard", "harsh", "harvest", "hat", "have", "hawk",
  "hazard", "head", "health", "heart", "heavy", "hedgehog", "height", "hello", "helmet", "help",
  "hen", "hero", "hidden", "high", "hill", "hint", "hip", "hire", "history", "hobby",
  "hockey", "hold", "hole", "holiday", "hollow", "home", "honey", "hood", "hope", "horn",
  "horror", "horse", "hospital", "host", "hotel", "hour", "hover", "hub", "huge", "human",
  "humble", "humor", "hundred", "hungry", "hunt", "hurdle", "hurry", "hurt", "husband", "hybrid",
  "ice", "icon", "idea", "identify", "idle", "ignore", "ill", "illegal", "illness", "image",
  "imitate", "immense", "immune", "impact", "impose", "improve", "impulse", "inch", "include", "income",
  "increase", "index", "indicate", "indoor", "industry", "infant", "inflict", "inform", "inhale", "inherit",
  "initial", "inject", "injury", "inmate", "inner", "innocent", "input", "inquiry", "insane", "insect",
  "inside", "inspire", "install", "intact", "interest", "into", "invest", "invite", "involve", "iron",
  "island", "isolate", "issue", "item", "ivory", "jacket", "jaguar", "jar", "jazz", "jealous",
  "jeans", "jelly", "jewel", "job", "join", "joke", "journey", "joy", "judge", "juice",
  "jump", "jungle", "junior", "junk", "just", "kangaroo", "keen", "keep", "ketchup", "key",
  "kick", "kid", "kidney", "kind", "kingdom", "kiss", "kit", "kitchen", "kite", "kitten",
  "kiwi", "knee", "knife", "knock", "know", "lab", "label", "labor", "ladder", "lady",
  "lake", "lamp", "language", "laptop", "large", "later", "latin", "laugh", "laundry", "lava",
  "law", "lawn", "lawsuit", "layer", "lazy", "leader", "leaf", "learn", "leave", "lecture",
  "left", "leg", "legal", "legend", "leisure", "lemon", "lend", "length", "lens", "leopard",
  "lesson", "letter", "level", "liar", "liberty", "library", "license", "life", "lift", "light",
  "like", "limb", "limit", "link", "lion", "liquid", "list", "little", "live", "lizard",
  "load", "loan", "lobster", "local", "lock", "logic", "lonely", "long", "loop", "lottery",
  "loud", "lounge", "love", "loyal", "lucky", "luggage", "lumber", "lunar", "lunch", "luxury",
  "lying", "machine", "mad", "magic", "magnet", "maid", "mail", "main", "major", "make",
  "mammal", "man", "manage", "mandate", "mango", "mansion", "manual", "maple", "marble", "march",
  "margin", "marine", "market", "marriage", "mask", "mass", "master", "match", "material", "math",
  "matrix", "matter", "maximum", "maze", "meadow", "mean", "measure", "meat", "mechanic", "medal",
  "media", "melody", "melt", "member", "memory", "mention", "menu", "mercy", "merge", "merit",
  "merry", "mesh", "message", "metal", "method", "middle", "midnight", "milk", "million", "mimic",
  "mind", "minimum", "minor", "minute", "miracle", "mirror", "misery", "miss", "mistake", "mix",
  "mixed", "mixture", "mobile", "model", "modify", "mom", "moment", "monitor", "monkey", "monster",
  "month", "moon", "moral", "more", "morning", "mosquito", "mother", "motion", "motor", "mountain",
  "mouse", "move", "movie", "much", "muffin", "mule", "multiply", "muscle", "museum", "mushroom",
  "music", "must", "mutual", "myself", "mystery", "myth", "naive", "name", "napkin", "narrow",
  "nasty", "nation", "nature", "near", "neck", "need", "negative", "neglect", "neither", "nephew",
  "nerve", "nest", "net", "network", "neutral", "never", "news", "next", "nice", "night",
  "noble", "noise", "nominee", "noodle", "normal", "north", "nose", "notable", "note", "nothing",
  "notice", "novel", "now", "nuclear", "number", "nurse", "nut", "oak", "obey", "object",
  "oblige", "obscure", "observe", "obtain", "obvious", "occur", "ocean", "october", "odor", "off",
  "offer", "office", "often", "oil", "okay", "old", "olive", "olympic", "omit", "once",
  "one", "onion", "online", "only", "open", "opera", "opinion", "oppose", "option", "orange",
  "orbit", "orchard", "order", "ordinary", "organ", "orient", "original", "orphan", "ostrich", "other",
  "outdoor", "outer", "output", "outside", "oval", "oven", "over", "own", "owner", "oxygen",
  "oyster", "ozone", "pact", "paddle", "page", "pair", "palace", "palm", "panda", "panel",
  "panic", "panther", "paper", "parade", "parent", "park", "parrot", "part", "party", "pass",
  "patch", "path", "patient", "patrol", "pattern", "pause", "pave", "payment", "peace", "peanut",
  "pear", "peasant", "pelican", "pen", "penalty", "pencil", "people", "pepper", "perfect", "permit",
  "person", "pet", "phone", "photo", "phrase", "physical", "piano", "picnic", "picture", "piece",
  "pig", "pigeon", "pill", "pilot", "pink", "pioneer", "pipe", "pistol", "pitch", "pizza",
  "place", "planet", "plastic", "plate", "play", "please", "pledge", "pluck", "plug", "plunge",
  "poem", "poet", "point", "polar", "pole", "police", "pond", "pony", "pool", "popular",
  "portion", "position", "possible", "post", "potato", "pottery", "poverty", "powder", "power", "practice",
  "praise", "predict", "prefer", "prepare", "present", "pretty", "prevent", "price", "pride", "primary",
  "print", "priority", "prison", "private", "prize", "problem", "process", "produce", "profit", "program",
  "project", "promote", "proof", "property", "prosper", "protect", "proud", "provide", "public", "pudding",
  "pull", "pulp", "pulse", "pumpkin", "punch", "pupil", "puppy", "purchase", "purity", "purpose",
  "purse", "push", "put", "puzzle", "pyramid", "quality", "quantum", "quarter", "question", "quick",
  "quiet", "quilt", "quit", "quiz", "quote", "rabbit", "raccoon", "race", "rack", "radar",
  "radio", "rail", "rain", "raise", "rally", "ramp", "ranch", "random", "range", "rapid",
  "rare", "rate", "rather", "raven", "raw", "razor", "ready", "real", "reason", "rebel",
  "rebuild", "recall", "receive", "recipe", "record", "recycle", "reduce", "reflect", "reform", "refuse",
  "region", "regret", "regular", "reject", "relax", "release", "relief", "rely", "remain", "remember",
  "remind", "remove", "render", "renew", "rent", "reopen", "repair", "repeat", "replace", "report",
  "require", "rescue", "resemble", "resist", "resource", "response", "result", "retire", "retreat", "return",
  "reunion", "reveal", "review", "reward", "rhythm", "rib", "ribbon", "rice", "rich", "ride",
  "ridge", "rifle", "right", "rigid", "ring", "riot", "ripple", "rise", "risk", "ritual",
  "rival", "river", "road", "roast", "rob", "robot", "robust", "rocket", "romance", "roof",
  "rookie", "room", "rose", "rotate", "rough", "round", "route", "royal", "rubber", "rude",
  "rug", "rule", "run", "runway", "rural", "sad", "saddle", "sadness", "safe", "sail",
  "salad", "salmon", "salon", "salt", "salute", "same", "sample", "sand", "satisfy", "satoshi",
  "sauce", "sausage", "save", "say", "scale", "scan", "scare", "scatter", "scene", "scheme",
  "school", "science", "scissors", "scorpion", "scout", "scrap", "screen", "script", "scrub", "sea",
  "search", "season", "seat", "second", "secret", "section", "security", "seed", "seek", "segment",
  "select", "sell", "seminar", "senior", "sense", "sentence", "series", "service", "session", "settle",
  "setup", "seven", "shadow", "shaft", "shallow", "share", "shed", "shell", "sheriff", "shield",
  "shift", "shine", "ship", "shirt", "shock", "shoe", "shoot", "shop", "short", "shoulder",
  "shove", "shrimp", "shrug", "shuffle", "shy", "sibling", "sick", "side", "siege", "sight",
  "sign", "silent", "silk", "silly", "silver", "similar", "simple", "since", "sing", "siren",
  "sister", "situate", "six", "size", "skate", "sketch", "ski", "skill", "skin", "skirt",
  "skull", "slab", "slam", "sleep", "slender", "slice", "slide", "slight", "slim", "slogan",
  "slot", "slow", "slush", "small", "smart", "smile", "smoke", "smooth", "snack", "snake",
  "snap", "sniff", "snow", "soap", "soccer", "social", "sock", "soda", "soft", "solar",
  "sold", "soldier", "solid", "solution", "solve", "someone", "song", "soon", "sorry", "sort",
  "soul", "sound", "soup", "source", "south", "space", "spare", "spatial", "spawn", "speak",
  "special", "speed", "spell", "spend", "sphere", "spice", "spider", "spike", "spin", "spirit",
  "split", "spoil", "sponsor", "spoon", "sport", "spot", "spray", "spread", "spring", "spy",
  "square", "squeeze", "squirrel", "stable", "stadium", "staff", "stage", "stairs", "stamp", "stand",
  "start", "state", "stay", "steak", "steel", "stem", "step", "stereo", "stick", "still",
  "sting", "stock", "stomach", "stone", "stool", "story", "stove", "strategy", "street", "strike",
  "strong", "struggle", "student", "stuff", "stumble", "style", "subject", "submit", "subway", "success",
  "such", "sudden", "suffer", "sugar", "suggest", "suit", "summer", "sun", "sunny", "sunset",
  "super", "supply", "supreme", "sure", "surface", "surge", "surprise", "surround", "survey", "suspect",
  "sustain", "swallow", "swamp", "swap", "swear", "sweet", "swift", "swim", "swing", "switch",
  "sword", "symbol", "symptom", "syrup", "system", "table", "tackle", "tag", "tail", "talent",
  "talk", "tank", "tape", "target", "task", "taste", "tattoo", "taxi", "teach", "team",
  "tell", "ten", "tenant", "tennis", "tent", "term", "test", "text", "thank", "that",
  "theme", "then", "theory", "there", "they", "thing", "this", "thought", "three", "thrive",
  "throw", "thumb", "thunder", "ticket", "tide", "tiger", "tilt", "timber", "time", "tiny",
  "tip", "tired", "tissue", "title", "toast", "tobacco", "today", "toddler", "toe", "together",
  "toilet", "token", "tomato", "tomorrow", "tone", "tongue", "tonight", "tool", "tooth", "top",
  "topic", "topple", "torch", "tornado", "tortoise", "toss", "total", "tourist", "toward", "tower",
  "town", "toy", "track", "trade", "traffic", "tragic", "train", "transfer", "trap", "trash",
  "travel", "tray", "treat", "tree", "trend", "trial", "tribe", "trick", "trigger", "trim",
  "trip", "trophy", "trouble", "truck", "true", "truly", "trumpet", "trust", "truth", "try",
  "tube", "tuition", "tumble", "tuna", "tunnel", "turkey", "turn", "turtle", "twelve", "twenty",
  "twice", "twin", "twist", "two", "type", "typical", "ugly", "umbrella", "unable", "unaware",
  "uncle", "uncover", "under", "undo", "unfair", "unfold", "unhappy", "uniform", "unique", "unit",
  "universe", "unknown", "unlock", "until", "unusual", "unveil", "update", "upgrade", "uphold", "upon",
  "upper", "upset", "urban", "urge", "usage", "use", "used", "useful", "useless", "usual",
  "utility", "vacant", "vacuum", "vague", "valid", "valley", "valve", "van", "vanish", "vapor",
  "various", "vast", "vault", "vehicle", "velvet", "vendor", "venture", "venue", "verb", "verify",
  "version", "very", "vessel", "veteran", "viable", "vibe", "vicious", "victory", "video", "view",
  "village", "vintage", "violin", "virtual", "virus", "visa", "visit", "visual", "vital", "vivid",
  "vocal", "voice", "void", "volcano", "volume", "vote", "voyage", "wage", "wagon", "wait",
  "walk", "wall", "walnut", "want", "warfare", "warm", "warrior", "wash", "wasp", "waste",
  "water", "wave", "way", "wealth", "weapon", "wear", "weasel", "weather", "web", "wedding",
  "weekend", "weird", "welcome", "west", "wet", "what", "wheat", "wheel", "when", "where",
  "whip", "whisper", "wide", "width", "wife", "wild", "will", "win", "window", "wine",
  "wing", "wink", "winner", "winter", "wire", "wisdom", "wise", "wish", "witness", "wolf",
  "woman", "wonder", "wood", "wool", "word", "work", "world", "worry", "worth", "wrap",
  "wreck", "wrestle", "wrist", "write", "wrong", "yard", "year", "yellow", "you", "young",
  "youth", "zebra", "zero", "zone", "zoo"
]

/-! ## Spec-modelled encryption pipeline

The Tauri commands encrypt_seed_phrase and decrypt_content live in the Rust
back end, which is not among the supplied sources; only their callers are.
The definitions below are modelled from the spec. -/

/-- Modelled from the spec: the missing key-derivation input rule of the Rust
back end. Spec 4.2: the UTF-8 bytes of the passphrase, then a separator byte,
then the UTF-8 bytes of the password; an absent password is the empty string. -/
def combineSecrets (passphrase password : String) : List Nat :=
  passphrase.data.map Char.toNat ++ [0] ++ password.data.map Char.toNat

/-- Plaintext bytes of a string, one byte per character; faithful to UTF-8 on
the ASCII range, which covers every valid mnemonic and this byte model. -/
def strToBytes (s : String) : List Nat :=
  s.data.map Char.toNat

/-- Inverse of strToBytes. -/
def bytesToStr (l : List Nat) : String :=
  String.mk (l.map Char.ofNat)

/-- Modelled from the spec: the missing encrypt_seed_phrase command of the Rust
back end. Spec 2 and 6: validate the mnemonic against the BIP39 list, derive a
key from the combined secrets with the stored salt at the default 100000
iterations, encrypt with the AEAD under a fresh nonce, and emit the standard
container salt(16) || nonce(12) || ciphertext || authTag(16) as base64. The
key-derivation function, the AEAD, and the fresh randomness (salt, nonce) are
parameters of the model. -/
def encryptSeedPhrase
    (kdf : List Nat → List Nat → Nat → List Nat)
    (aeadEnc : List Nat → List Nat → List Nat → List Nat × List Nat)
    (salt nonce : List Nat) (mnemonic passphrase password : String) :
    Option String :=
  if (validateSeedPhraseStructure bip39Words mnemonic).isValid then
    let key := kdf (combineSecrets passphrase password) salt 100000
    let out := aeadEnc key nonce (strToBytes mnemonic)
    some (btoa (salt ++ nonce ++ out.1 ++ out.2))
  else none

/-- Modelled from the spec: the missing decrypt_content command of the Rust
back end. Spec 6: base64-decode, reject a container shorter than the fixed
fields, split off salt, nonce and authentication tag, re-derive the key from
the combined secrets and the stored salt, and decrypt with the AEAD. -/
def decryptContent
    (kdf : List Nat → List Nat → Nat → List Nat)
    (aeadDec : List Nat → List Nat → List Nat → List Nat → Option (List Nat))
    (blob passphrase password : String) : Option String :=
  match atob blob with
  | none => none
  | some data =>
    if data.length < 44 then none
    else
      let salt := data.take 16
      let nonce := (data.drop 16).take 12
      let tag := data.drop (data.length - 16)
      let ct := (data.drop 28).take (data.length - 44)
      let key := kdf (combineSecrets passphrase password) salt 100000
      match aeadDec key nonce ct tag with
      | none => none
      | some pt => some (bytesToStr pt)

/-- Lexicographic strict order on character lists, by code point. -/
def lexLtChars : List Char → List Char → Bool
  | [], [] => false
  | [], _ :: _ => true
  | _ :: _, [] => false
  | a :: as, b :: bs =>
    if a.toNat < b.toNat then true
    else if b.toNat < a.toNat then false
    else lexLtChars as bs

/-- Lexicographic strict order on strings, by code point. -/
def strLexLt (a b : String) : Prop :=
  lexLtChars a.data b.data = true

/-- Adjacent-pair checker used to state that a list is strictly sorted. -/
def strictSortedStr : List String → Bool
  | [] => true
  | [_] => true
  | a :: b :: rest => lexLtChars a.data b.data && strictSortedStr (b :: rest)

/-- Tail-recursive length check. -/
def lenCheck : Nat → List String → Bool
  | n, [] => n == 0
  | 0, _ :: _ => false
  | n + 1, _ :: rest => lenCheck n rest
/-! ## String helper lemmas -/

theorem strExt {a b : String} (h : a.data = b.data) : a = b := by
  cases a; cases b; exact congrArg String.mk h

theorem strDataAppend (a b : String) : (a ++ b).data = a.data ++ b.data := by
  cases a; cases b; rfl

theorem strAppend_eq_empty {a b : String} : a ++ b = "" ↔ a = "" ∧ b = "" := by
  constructor
  · intro h
    have h2 : a.data ++ b.data = [] := by
      have h3 := congrArg String.data h
      rwa [strDataAppend] at h3
    rcases List.append_eq_nil.1 h2 with ⟨h3, h4⟩
    exact ⟨strExt h3, strExt h4⟩
  · rintro ⟨rfl, rfl⟩; rfl

theorem strAppend_ne_empty_left {a : String} (b : String) (h : a ≠ "") :
    a ++ b ≠ "" := fun hc => h (strAppend_eq_empty.1 hc).1

theorem strAppend_ne_empty_right (a : String) {b : String} (h : b ≠ "") :
    a ++ b ≠ "" := fun hc => h (strAppend_eq_empty.1 hc).2

theorem mem_middle_of_eq {a pre mid post : String} (c : Char) (hc : c ∈ mid.data)
    (h : a = pre ++ mid ++ post) : c ∈ a.data := by
  subst h
  rw [strDataAppend, strDataAppend]
  exact List.mem_append.2 (Or.inl (List.mem_append.2 (Or.inr hc)))

theorem joinSep_split (sep : String) :
    ∀ ws : List String, ∀ w ∈ ws, ∃ pre post : String,
      joinSep sep ws = pre ++ w ++ post
  | [], w, hw => absurd hw (by simp)
  | [w0], w, hw => by
    have he : w = w0 := by simpa using hw
    subst he
    exact ⟨"", "", by apply strExt; simp [joinSep, strDataAppend]⟩
  | w0 :: w1 :: rest, w, hw => by
    rcases List.mem_cons.1 hw with h | h
    · subst h
      refine ⟨"", sep ++ joinSep sep (w1 :: rest), ?_⟩
      apply strExt
      simp [joinSep, strDataAppend]
    · obtain ⟨pre, post, hj⟩ := joinSep_split sep (w1 :: rest) w h
      refine ⟨w0 ++ sep ++ pre, post, ?_⟩
      apply strExt
      simp [joinSep, strDataAppend, hj]

/-! ## Branch characterizations of the validator -/

theorem wordsOf_empty : wordsOf "" = [] := rfl

theorem validate_empty_input (wl : List String) :
    validateSeedPhraseStructure wl "" =
      ⟨false, "No seed phrase provided"⟩ := rfl

theorem validate_bad_count (wl : List String) (s : String) (h1 : s ≠ "")
    (h2 : (wordsOf s).length ∉ allowedWordCounts) :
    validateSeedPhraseStructure wl s =
      ⟨false, "Invalid word count: " ++ toString (wordsOf s).length ++
        ". Expected 12, 15, 18, 21, or 24 words."⟩ := by
  simp [validateSeedPhraseStructure, h1, h2]

theorem count_ok_ne_empty {s : String}
    (h2 : (wordsOf s).length ∈ allowedWordCounts) : s ≠ "" := by
  intro he
  subst he
  simp [wordsOf_empty, allowedWordCounts] at h2

theorem validate_invalid_branch (wl : List String) (s : String)
    (h2 : (wordsOf s).length ∈ allowedWordCounts)
    (hwl : wl ≠ [])
    (hinv : ∃ x ∈ wordsOf s, lowerStr x ∉ wl) :
    validateSeedPhraseStructure wl s =
      ⟨false, "Invalid BIP39 words: " ++
        joinSep ", " (((wordsOf s).filter
          (fun w => !(wl.contains (lowerStr w)))).take 3) ++
        (if ((wordsOf s).filter (fun w => !(wl.contains (lowerStr w)))).length > 3
          then " (+" ++ toString (((wordsOf s).filter
            (fun w => !(wl.contains (lowerStr w)))).length - 3) ++ " more)"
          else "")⟩ := by
  simp [validateSeedPhraseStructure, count_ok_ne_empty h2, h2, hwl, hinv]

/-- C5: mnemonic validation is total over strings and always returns a
structured result with a validity flag and a non-empty message; with an empty
or unloaded wordlist it never reports a valid mnemonic. Totality, determinism
and absence of exceptions or mutation are inherent in the pure embedding. -/
theorem c5_validation_total_and_safe (wl : List String) (s : String) :
    (validateSeedPhraseStructure wl s).message ≠ "" ∧
    (validateSeedPhraseStructure [] s).isValid = false := by
  constructor
  · by_cases h1 : s = ""
    · subst h1
      rw [validate_empty_input]
      decide
    · by_cases h2 : (wordsOf s).length ∈ allowedWordCounts
      · by_cases hwl : wl = []
        · subst hwl
          simp [validateSeedPhraseStructure, h1, h2]
          exact strAppend_ne_empty_right _ (by decide)
        · by_cases hinv : ∃ x ∈ wordsOf s, lowerStr x ∉ wl
          · rw [validate_invalid_branch wl s h2 hwl hinv]
            exact strAppend_ne_empty_left _
              (strAppend_ne_empty_left _ (by decide))
          · simp [validateSeedPhraseStructure, h1, h2, hwl, hinv]
            exact strAppend_ne_empty_right _ (by decide)
      · rw [validate_bad_count wl s h1 h2]
        exact strAppend_ne_empty_right _ (by decide)
  · by_cases h1 : s = ""
    · subst h1
      rw [validate_empty_input]
    · by_cases h2 : (wordsOf s).length ∈ allowedWordCounts
      · simp [validateSeedPhraseStructure, h1, h2]
      · rw [validate_bad_count [] s h1 h2]
theorem strAssoc (a b c : String) : a ++ b ++ c = a ++ (b ++ c) := by
  apply strExt
  simp [strDataAppend]

/-- C3 (amended): for every non-empty input whose word count lies outside
{12, 15, 18, 21, 24}, validation fails with the actual count cited inside the
message, and the result does not depend on the wordlist at all — the count
check runs first, instead of any check of individual words; the empty string
instead short-circuits to the count-free message "No seed phrase provided". -/
theorem c3_word_count_checked_first (wl wl2 : List String) (s : String)
    (h1 : s ≠ "") (h2 : (wordsOf s).length ∉ allowedWordCounts) :
    (validateSeedPhraseStructure wl s).isValid = false ∧
    (∃ pre post : String, (validateSeedPhraseStructure wl s).message =
      pre ++ toString (wordsOf s).length ++ post) ∧
    validateSeedPhraseStructure wl s = validateSeedPhraseStructure wl2 s := by
  rw [validate_bad_count wl s h1 h2, validate_bad_count wl2 s h1 h2]
  exact ⟨rfl,
    ⟨"Invalid word count: ", ". Expected 12, 15, 18, 21, or 24 words.", rfl⟩,
    rfl⟩

/-- Witness for C3 at the concrete three-word input "a b c". -/
theorem c3_word_count_checked_first_witness :
    ("a b c" ≠ "" ∧ (wordsOf "a b c").length ∉ allowedWordCounts) ∧
    ((validateSeedPhraseStructure bip39Words "a b c").isValid = false ∧
    (∃ pre post : String, (validateSeedPhraseStructure bip39Words "a b c").message =
      pre ++ toString (wordsOf "a b c").length ++ post) ∧
    validateSeedPhraseStructure bip39Words "a b c" =
      validateSeedPhraseStructure [] "a b c") :=
  ⟨⟨by decide, by decide⟩,
    c3_word_count_checked_first bip39Words [] "a b c" (by decide) (by decide)⟩

/-- C3 counterexample: the empty string has word count 0, outside the allowed
set, yet its validation message "No seed phrase provided" does not contain the
count. -/
theorem c3_cex_empty_input_message_lacks_count :
    (wordsOf "").length ∉ allowedWordCounts ∧
    ¬ ∃ pre post : String,
      (validateSeedPhraseStructure bip39Words "").message =
        pre ++ toString (wordsOf "").length ++ post := by
  refine ⟨by decide, ?_⟩
  rintro ⟨pre, post, h⟩
  have hz : '0' ∈ (validateSeedPhraseStructure bip39Words "").message.data :=
    mem_middle_of_eq '0' (by decide) h
  revert hz
  decide

/-- Branch characterization of the page-script validator on invalid words. -/
theorem mnemonicCore_invalid_branch (wl : List String) (s : String)
    (h2 : (wordsOf s).length ∈ allowedWordCounts)
    (hinv : ∃ x ∈ wordsOf s, lowerStr x ∉ wl) :
    validateMnemonicCore wl s =
      ⟨false, "Invalid words: " ++ joinSep ", "
        ((wordsOf s).filter (fun w => !(wl.contains (lowerStr w))))⟩ := by
  simp [validateMnemonicCore, h2, hinv]

/-- C4 (amended): with a loaded wordlist and an allowed word count, when some
words are missing from the BIP39 list validation fails and the message of
validateSeedPhraseStructure cites, by exact text, the first three invalid
words (hence every one of them whenever at most three are invalid), reporting
any remainder only as a count; the duplicated page-script validator cites
every invalid word by exact text. -/
theorem c4_invalid_words_cited (wl : List String) (s : String)
    (hwl : wl ≠ [])
    (h2 : (wordsOf s).length ∈ allowedWordCounts)
    (hinv : ∃ x ∈ wordsOf s, lowerStr x ∉ wl) :
    (validateSeedPhraseStructure wl s).isValid = false ∧
    (∀ w ∈ ((wordsOf s).filter (fun w => !(wl.contains (lowerStr w)))).take 3,
      ∃ pre post : String,
        (validateSeedPhraseStructure wl s).message = pre ++ w ++ post) ∧
    (∀ w ∈ (wordsOf s).filter (fun w => !(wl.contains (lowerStr w))),
      ∃ pre post : String,
        (validateMnemonicCore wl s).message = pre ++ w ++ post) := by
  rw [validate_invalid_branch wl s h2 hwl hinv,
    mnemonicCore_invalid_branch wl s h2 hinv]
  refine ⟨rfl, ?_, ?_⟩
  · intro w hw
    obtain ⟨pre, post, hj⟩ := joinSep_split ", " _ w hw
    refine ⟨"Invalid BIP39 words: " ++ pre,
      post ++ (if ((wordsOf s).filter
        (fun w => !(wl.contains (lowerStr w)))).length > 3
        then " (+" ++ toString (((wordsOf s).filter
          (fun w => !(wl.contains (lowerStr w)))).length - 3) ++ " more)"
        else ""), ?_⟩
    rw [hj]
    simp [strAssoc]
  · intro w hw
    obtain ⟨pre, post, hj⟩ := joinSep_split ", " _ w hw
    refine ⟨"Invalid words: " ++ pre, post, ?_⟩
    rw [hj]
    simp [strAssoc]

set_option maxRecDepth 40000 in
/-- Witness for C4 at a twelve-word input with one invalid word. -/
theorem c4_invalid_words_cited_witness :
    (bip39Words ≠ [] ∧
      (wordsOf "abandon ability able about above absent absorb abstract abuse access accident zzzz").length ∈ allowedWordCounts ∧
      (∃ x ∈ wordsOf "abandon ability able about above absent absorb abstract abuse access accident zzzz", lowerStr x ∉ bip39Words)) ∧
    ((validateSeedPhraseStructure bip39Words "abandon ability able about above absent absorb abstract abuse access accident zzzz").isValid = false ∧
    (∀ w ∈ ((wordsOf "abandon ability able about above absent absorb abstract abuse access accident zzzz").filter
        (fun w => !(bip39Words.contains (lowerStr w)))).take 3,
      ∃ pre post : String,
        (validateSeedPhraseStructure bip39Words "abandon ability able about above absent absorb abstract abuse access accident zzzz").message = pre ++ w ++ post) ∧
    (∀ w ∈ (wordsOf "abandon ability able about above absent absorb abstract abuse access accident zzzz").filter
        (fun w => !(bip39Words.contains (lowerStr w))),
      ∃ pre post : String,
        (validateMnemonicCore bip39Words "abandon ability able about above absent absorb abstract abuse access accident zzzz").message = pre ++ w ++ post)) :=
  ⟨⟨by decide, by decide, by decide⟩,
    c4_invalid_words_cited bip39Words _ (by decide) (by decide) (by decide)⟩

set_option maxRecDepth 40000 in
/-- C4 counterexample: a twelve-word input with four invalid words; the fourth
invalid word zzzz is dropped from the message, which cites only the first
three and a remainder count. -/
theorem c4_cex_fourth_invalid_word_not_cited :
    "zzzz" ∈ (wordsOf "abandon ability able about above absent absorb abstract qqqq wwww eeee zzzz").filter
      (fun w => !(bip39Words.contains (lowerStr w))) ∧
    ¬ ∃ pre post : String,
      (validateSeedPhraseStructure bip39Words "abandon ability able about above absent absorb abstract qqqq wwww eeee zzzz").message =
        pre ++ "zzzz" ++ post := by
  refine ⟨by decide, ?_⟩
  rintro ⟨pre, post, h⟩
  have hz : 'z' ∈ (validateSeedPhraseStructure bip39Words "abandon ability able about above absent absorb abstract qqqq wwww eeee zzzz").message.data :=
    mem_middle_of_eq 'z' (by decide) h
  revert hz
  decide
/-- Boolean sniff characterization. -/
theorem sniff_spec (s : String) :
    sniffIsAdvanced s = true ↔
      ∃ data, atob s = some data ∧ 8 ≤ data.length ∧ data.take 8 = magicBytes := by
  unfold sniffIsAdvanced
  cases h : atob s <;> simp

/-- C2: the decryption entry point treats an input as advanced exactly when it
base64-decodes (forgiving atob) to at least eight bytes whose first eight
characters are the ASCII magic AESADV01, routing to the advanced operation,
and as standard otherwise (decode failure or missing magic), routing to the
standard operation; the sniff is a pure total function of the input string,
hence deterministic and free of any state mutation. -/
theorem c2_decrypt_format_sniff (s : String) :
    (performDecryptionRoute s = DecryptRoute.advanced ↔
      ∃ data, atob s = some data ∧ 8 ≤ data.length ∧ data.take 8 = magicBytes) ∧
    (performDecryptionRoute s = DecryptRoute.standard ↔
      ¬ ∃ data, atob s = some data ∧ 8 ≤ data.length ∧ data.take 8 = magicBytes) := by
  have hspec := sniff_spec s
  by_cases hs : sniffIsAdvanced s = true
  · simp [performDecryptionRoute, hs, hspec.1 hs]
  · have hP : ¬ ∃ data, atob s = some data ∧ 8 ≤ data.length ∧
        data.take 8 = magicBytes := fun hp => hs (hspec.2 hp)
    simp [performDecryptionRoute, hs, hP]

/-- Sanitized filename parts contain only filename-safe characters. -/
theorem sanitize_safe (s : String) :
    ∀ c ∈ (sanitizeFilenamePart s).data, isFilenameSafeCh c = true := by
  intro c hc
  rw [sanitizeFilenamePart] at hc
  obtain ⟨a, _, hfa⟩ := List.mem_map.1 hc
  by_cases hsafe : isFilenameSafeCh a = true
  · rw [if_pos hsafe] at hfa
    rw [← hfa]
    exact hsafe
  · rw [if_neg hsafe] at hfa
    rw [← hfa]
    decide

theorem chOfNatToNat (n : Nat) (h : n.isValidChar) : (Char.ofNat n).toNat = n := by
  rw [Char.ofNat, dif_pos h]
  simp [Char.ofNatAux, Char.toNat, BitVec.toNat_ofNatLt]
  rfl

/-- Lower-casing a character twice is the same as once. -/
theorem toLowerIdem (c : Char) : c.toLower.toLower = c.toLower := by
  simp only [Char.toLower]
  by_cases h : c.toNat ≥ 65 ∧ c.toNat ≤ 90
  · rw [if_pos h]
    have hv : (c.toNat + 32).isValidChar := Or.inl (by omega)
    rw [chOfNatToNat _ hv, if_neg (by omega)]
  · rw [if_neg h, if_neg h]

/-- The string lower-casing model is idempotent. -/
theorem lowerStr_idem (s : String) : lowerStr (lowerStr s) = lowerStr s := by
  apply strExt
  simp only [lowerStr, List.map_map]
  exact List.map_congr_left (fun a _ => toLowerIdem a)

/-- C7: the suggested filename replaces every character of the label and the
wallet type outside [A-Za-z0-9_-] with an underscore, lower-cases the wallet
type, and appends the ISO date and the fixed extension .bin; every character
of the result except the extension dot is filename-safe whenever the date is,
and the wallet type enters only through its lower-casing. The construction is
a total pure function of (label, walletType, date), so it never throws on
arbitrary Unicode input and is deterministic for identical metadata with a
same-day timestamp. -/
theorem c7_suggested_filename (label walletType date : String)
    (hd : ∀ c ∈ date.data, isFilenameSafeCh c = true) :
    (∃ front : String,
      buildSuggestedFilename label walletType date =
        front ++ "_" ++ date ++ ".bin" ∧
      ∀ c ∈ front.data, isFilenameSafeCh c = true) ∧
    (∀ c ∈ (buildSuggestedFilename label walletType date).data,
      isFilenameSafeCh c = true ∨ c = '.') ∧
    buildSuggestedFilename label walletType date =
      buildSuggestedFilename label (lowerStr walletType) date ∧
    (∀ c : Char, isFilenameSafeCh c = false →
      (sanitizeFilenamePart (String.mk [c])).data = ['_']) := by
  refine ⟨⟨sanitizeFilenamePart label ++ "_" ++
      sanitizeFilenamePart (lowerStr walletType), rfl, ?_⟩, ?_, ?_, ?_⟩
  · intro c hc
    simp only [strDataAppend, List.mem_append] at hc
    rcases hc with (hc | hc) | hc
    · exact sanitize_safe label c hc
    · have hu : c = '_' := by simpa using hc
      subst hu
      decide
    · exact sanitize_safe (lowerStr walletType) c hc
  · intro c hc
    simp only [buildSuggestedFilename, strDataAppend, List.mem_append] at hc
    rcases hc with ((((hc | hc) | hc) | hc) | hc) | hc
    · exact Or.inl (sanitize_safe label c hc)
    · have hu : c = '_' := by simpa using hc
      subst hu
      exact Or.inl (by decide)
    · exact Or.inl (sanitize_safe (lowerStr walletType) c hc)
    · have hu : c = '_' := by simpa using hc
      subst hu
      exact Or.inl (by decide)
    · exact Or.inl (hd c hc)
    · rcases (by simpa using hc : c = '.' ∨ c = 'b' ∨ c = 'i' ∨ c = 'n') with
        h | h | h | h <;> subst h
      · exact Or.inr rfl
      · exact Or.inl (by decide)
      · exact Or.inl (by decide)
      · exact Or.inl (by decide)
  · rw [buildSuggestedFilename, buildSuggestedFilename, lowerStr_idem]
  · intro c h
    rw [sanitizeFilenamePart]
    simp [h]

/-- Witness for C7 at concrete metadata containing unsafe Unicode. -/
theorem c7_suggested_filename_witness :
    (∀ c ∈ ("2026-10-11" : String).data, isFilenameSafeCh c = true) ∧
    ((∃ front : String,
      buildSuggestedFilename "My Wallet! ✨" "Bitcoin-Core" "2026-10-11" =
        front ++ "_" ++ "2026-10-11" ++ ".bin" ∧
      ∀ c ∈ front.data, isFilenameSafeCh c = true) ∧
    (∀ c ∈ (buildSuggestedFilename "My Wallet! ✨" "Bitcoin-Core" "2026-10-11").data,
      isFilenameSafeCh c = true ∨ c = '.') ∧
    buildSuggestedFilename "My Wallet! ✨" "Bitcoin-Core" "2026-10-11" =
      buildSuggestedFilename "My Wallet! ✨" (lowerStr "Bitcoin-Core") "2026-10-11" ∧
    (∀ c : Char, isFilenameSafeCh c = false →
      (sanitizeFilenamePart (String.mk [c])).data = ['_'])) :=
  ⟨by decide, c7_suggested_filename "My Wallet! ✨" "Bitcoin-Core" "2026-10-11"
    (by decide)⟩

theorem lexLt_trans : ∀ l1 l2 l3 : List Char,
    lexLtChars l1 l2 = true → lexLtChars l2 l3 = true → lexLtChars l1 l3 = true
  | l1, [], _, h12, _ => by cases l1 <;> simp [lexLtChars] at h12
  | _, _ :: _, [], _, h23 => by simp [lexLtChars] at h23
  | [], _ :: _, _ :: _, _, _ => by simp [lexLtChars]
  | a :: as, b :: bs, c :: cs, h12, h23 => by
    rw [lexLtChars] at h12 h23 ⊢
    by_cases hab : a.toNat < b.toNat
    · by_cases hbc : b.toNat < c.toNat
      · rw [if_pos (by omega)]
      · rw [if_neg hbc] at h23
        by_cases hcb : c.toNat < b.toNat
        · rw [if_pos hcb] at h23
          exact absurd h23 (by simp)
        · rw [if_pos (by omega)]
    · rw [if_neg hab] at h12
      by_cases hba : b.toNat < a.toNat
      · rw [if_pos hba] at h12
        exact absurd h12 (by simp)
      · rw [if_neg hba] at h12
        by_cases hbc : b.toNat < c.toNat
        · rw [if_pos (by omega)]
        · rw [if_neg hbc] at h23
          by_cases hcb : c.toNat < b.toNat
          · rw [if_pos hcb] at h23
            exact absurd h23 (by simp)
          · rw [if_neg hcb] at h23
            rw [if_neg (by omega), if_neg (by omega)]
            exact lexLt_trans as bs cs h12 h23

theorem lexLt_irrefl : ∀ l : List Char, lexLtChars l l = false
  | [] => rfl
  | a :: as => by
    rw [lexLtChars, if_neg (by omega), if_neg (by omega)]
    exact lexLt_irrefl as

instance : IsTrans String strLexLt :=
  ⟨fun a b c => lexLt_trans a.data b.data c.data⟩

instance : IsIrrefl String strLexLt :=
  ⟨fun a h => by
    rw [strLexLt, lexLt_irrefl] at h
    exact Bool.false_ne_true h⟩

/-- A list passing the adjacent strict-order check is a strictly ascending
chain. -/
theorem strictSorted_chain :
    ∀ l : List String, strictSortedStr l = true → l.Chain' strLexLt
  | [], _ => List.chain'_nil
  | [_], _ => List.chain'_singleton _
  | a :: b :: rest, h => by
    rw [strictSortedStr, Bool.and_eq_true] at h
    exact List.chain'_cons.2 ⟨h.1, strictSorted_chain (b :: rest) h.2⟩

theorem lenCheck_spec : ∀ (n : Nat) (l : List String),
    lenCheck n l = true → l.length = n
  | n, [], h => by
    rw [lenCheck] at h
    simp at h
    simp [h]
  | 0, a :: l, h => by
    rw [lenCheck] at h
    exact absurd h (by simp)
  | n + 1, a :: l, h => by
    rw [lenCheck] at h
    simp [lenCheck_spec n l h]

set_option maxRecDepth 40000 in
/-- The embedded wordlist literal is strictly sorted, hence duplicate-free. -/
theorem bip39_nodup : bip39Words.Nodup :=
  (List.chain'_iff_pairwise.1 (strictSorted_chain bip39Words (by decide))).nodup

set_option maxRecDepth 40000 in
/-- The embedded wordlist literal has 2055 entries. -/
theorem bip39_length : bip39Words.length = 2055 :=
  lenCheck_spec 2055 bip39Words (by decide)

/-- C8 counterexample: the number of distinct entries of the embedded wordlist
literal is not 2048. -/
theorem c8_cex_wordlist_not_2048 : ¬ (bip39Words.dedup.length = 2048) := by
  rw [List.dedup_eq_self.2 bip39_nodup, bip39_length]
  omega

/-- C8 (amended): the wordlist literal embedded in loadBIP39WordList holds
exactly 2055 distinct entries — seven more than the canonical 2048-entry BIP39
list — and this literal is the list every mnemonic word is checked against. -/
theorem c8_wordlist_has_2055_distinct_entries :
    bip39Words.dedup.length = 2055 ∧ bip39Words.length = 2055 ∧
      bip39Words.Nodup := by
  rw [List.dedup_eq_self.2 bip39_nodup, bip39_length]
  exact ⟨rfl, rfl, bip39_nodup⟩
/-! ## Character-class lemmas -/

theorem charEqOfToNat {a b : Char} (h : a.toNat = b.toNat) : a = b := by
  have h2 := congrArg Char.ofNat h
  rwa [Char.ofNat_toNat, Char.ofNat_toNat] at h2

theorem blank_toNat : (' ' : Char).toNat = 32 := rfl

theorem underscore_toNat : ('_' : Char).toNat = 95 := rfl

theorem toLowerEqSelf (c : Char) (h : ¬(65 ≤ c.toNat ∧ c.toNat ≤ 90)) :
    c.toLower = c := by
  simp only [Char.toLower]
  rw [if_neg (by omega)]

theorem lower_range {c : Char} (h : isAsciiLowerCh c = true) :
    97 ≤ c.toNat ∧ c.toNat ≤ 122 := by
  simpa [isAsciiLowerCh] using h

theorem digit_range {c : Char} (h : isDigitCh c = true) :
    48 ≤ c.toNat ∧ c.toNat ≤ 57 := by
  simpa [isDigitCh] using h

theorem upper_range {c : Char} (h : isAsciiUpperCh c = true) :
    65 ≤ c.toNat ∧ c.toNat ≤ 90 := by
  simpa [isAsciiUpperCh] using h

theorem upper_false_of {c : Char} (h : ¬(65 ≤ c.toNat ∧ c.toNat ≤ 90)) :
    isAsciiUpperCh c = false := by
  simp [isAsciiUpperCh]
  omega

theorem tame_cases {c : Char} (h : tameCh c = true) :
    isAsciiLowerCh c = true ∨ isDigitCh c = true ∨ c = ' ' := by
  simp [tameCh] at h
  tauto

theorem tame_toNat {c : Char} (h : tameCh c = true) :
    (97 ≤ c.toNat ∧ c.toNat ≤ 122) ∨ (48 ≤ c.toNat ∧ c.toNat ≤ 57) ∨
      c.toNat = 32 := by
  rcases tame_cases h with h | h | h
  · exact Or.inl (lower_range h)
  · exact Or.inr (Or.inl (digit_range h))
  · subst h
    exact Or.inr (Or.inr blank_toNat)

theorem space_toNat {c : Char} (h : isJsSpaceCh c = true) :
    (9 ≤ c.toNat ∧ c.toNat ≤ 13) ∨ c.toNat = 32 ∨ c.toNat = 160 ∨
      c.toNat = 5760 ∨ (8192 ≤ c.toNat ∧ c.toNat ≤ 8202) ∨ c.toNat = 8232 ∨
      c.toNat = 8233 ∨ c.toNat = 8239 ∨ c.toNat = 8287 ∨ c.toNat = 12288 ∨
      c.toNat = 65279 := by
  simp [isJsSpaceCh] at h
  tauto

theorem space_of_toNat {c : Char} (h : c.toNat = 32) : isJsSpaceCh c = true := by
  simp [isJsSpaceCh]
  omega

theorem alnum_toNat {c : Char} (h : isAlnumCh c = true) :
    (65 ≤ c.toNat ∧ c.toNat ≤ 90) ∨ (97 ≤ c.toNat ∧ c.toNat ≤ 122) ∨
      (48 ≤ c.toNat ∧ c.toNat ≤ 57) := by
  simp [isAlnumCh] at h
  rcases h with (h | h) | h
  · exact Or.inl (upper_range h)
  · exact Or.inr (Or.inl (lower_range h))
  · exact Or.inr (Or.inr (digit_range h))

theorem alnum_of_toNat {c : Char}
    (h : (65 ≤ c.toNat ∧ c.toNat ≤ 90) ∨ (97 ≤ c.toNat ∧ c.toNat ≤ 122) ∨
      (48 ≤ c.toNat ∧ c.toNat ≤ 57)) : isAlnumCh c = true := by
  simp [isAlnumCh, isAsciiUpperCh, isAsciiLowerCh, isDigitCh]
  omega

theorem alnum_false_of {c : Char}
    (h : ¬((65 ≤ c.toNat ∧ c.toNat ≤ 90) ∨ (97 ≤ c.toNat ∧ c.toNat ≤ 122) ∨
      (48 ≤ c.toNat ∧ c.toNat ≤ 57))) : isAlnumCh c = false := by
  simp [isAlnumCh, isAsciiUpperCh, isAsciiLowerCh, isDigitCh]
  omega

theorem tame_toLower_fixed {c : Char} (h : tameCh c = true) : c.toLower = c := by
  apply toLowerEqSelf
  have h2 := tame_toNat h
  omega

theorem tame_not_upper {c : Char} (h : tameCh c = true) :
    isAsciiUpperCh c = false := by
  apply upper_false_of
  have h2 := tame_toNat h
  omega

theorem tame_space_blank {c : Char} (h1 : tameCh c = true)
    (h2 : isJsSpaceCh c = true) : c = ' ' := by
  apply charEqOfToNat
  rw [blank_toNat]
  have h3 := tame_toNat h1
  have h4 := space_toNat h2
  omega

theorem tame_nonalnum_blank {c : Char} (h1 : tameCh c = true)
    (h2 : isAlnumCh c = false) : c = ' ' := by
  apply charEqOfToNat
  rw [blank_toNat]
  have h3 := tame_toNat h1
  have h4 : ¬ ((65 ≤ c.toNat ∧ c.toNat ≤ 90) ∨ (97 ≤ c.toNat ∧ c.toNat ≤ 122) ∨
      (48 ≤ c.toNat ∧ c.toNat ≤ 57)) := by
    intro hcon
    rw [alnum_of_toNat hcon] at h2
    exact Bool.noConfusion h2
  omega

theorem alnum_not_space {c : Char} (h : isAlnumCh c = true) :
    isJsSpaceCh c = false := by
  have h2 := alnum_toNat h
  simp [isJsSpaceCh]
  omega

theorem space_not_alnum {c : Char} (h : isJsSpaceCh c = true) :
    isAlnumCh c = false := by
  apply alnum_false_of
  have h2 := space_toNat h
  omega

theorem word_toNat {c : Char} (h : isWordCh c = true) :
    (65 ≤ c.toNat ∧ c.toNat ≤ 90) ∨ (97 ≤ c.toNat ∧ c.toNat ≤ 122) ∨
      (48 ≤ c.toNat ∧ c.toNat ≤ 57) ∨ c.toNat = 95 := by
  simp [isWordCh] at h
  rcases h with ((h | h) | h) | h
  · exact Or.inl (upper_range h)
  · exact Or.inr (Or.inl (lower_range h))
  · exact Or.inr (Or.inr (Or.inl (digit_range h)))
  · subst h
    exact Or.inr (Or.inr (Or.inr underscore_toNat))

theorem alnum_word {c : Char} (h : isAlnumCh c = true) : isWordCh c = true := by
  rw [isWordCh]
  rw [isAlnumCh] at h
  simp only [Bool.or_eq_true] at h ⊢
  tauto

theorem nonword_of_nonalnum {c : Char} (h1 : isAlnumCh c = false)
    (h2 : c ≠ '_') : isWordCh c = false := by
  have h3 : c.toNat ≠ 95 := fun hn =>
    h2 (charEqOfToNat (by rw [hn, underscore_toNat]))
  have h4 : ¬ ((65 ≤ c.toNat ∧ c.toNat ≤ 90) ∨ (97 ≤ c.toNat ∧ c.toNat ≤ 122) ∨
      (48 ≤ c.toNat ∧ c.toNat ≤ 57)) := by
    intro hcon
    rw [alnum_of_toNat hcon] at h1
    exact Bool.noConfusion h1
  cases hw : isWordCh c with
  | false => rfl
  | true =>
    exfalso
    have h5 := word_toNat hw
    omega

/-- The replacement character is a plain space in every use below. -/
theorem space_blank_is_space : isJsSpaceCh ' ' = true := by decide

/-! ## Collapse-run lemmas -/

theorem collapseAux_mem (p : Char → Bool) (r : Char) (l : List Char) :
    ∀ (b : Bool), ∀ c ∈ collapseAux p r b l, c = r ∨ (c ∈ l ∧ p c = false) := by
  induction l with
  | nil => intro b c hc; simp [collapseAux] at hc
  | cons a as ih =>
    intro b c hc
    rw [collapseAux] at hc
    by_cases hp : p a = true
    · rw [if_pos hp] at hc
      cases b with
      | true =>
        rw [if_pos rfl] at hc
        rcases ih true c hc with h | ⟨h1, h2⟩
        · exact Or.inl h
        · exact Or.inr ⟨List.mem_cons_of_mem _ h1, h2⟩
      | false =>
        rw [if_neg (by simp)] at hc
        rcases List.mem_cons.1 hc with h | h
        · exact Or.inl h
        · rcases ih true c h with h2 | ⟨h3, h4⟩
          · exact Or.inl h2
          · exact Or.inr ⟨List.mem_cons_of_mem _ h3, h4⟩
    · rw [if_neg hp] at hc
      rcases List.mem_cons.1 hc with h | h
      · subst h
        exact Or.inr ⟨List.mem_cons_self c as, by simpa using hp⟩
      · rcases ih false c h with h2 | ⟨h3, h4⟩
        · exact Or.inl h2
        · exact Or.inr ⟨List.mem_cons_of_mem _ h3, h4⟩

theorem collapseAux_true_head (p : Char → Bool) (r : Char) :
    ∀ l : List Char, ∀ c, (collapseAux p r true l).head? = some c →
      p c = false := by
  intro l
  induction l with
  | nil => intro c hc; simp [collapseAux] at hc
  | cons a as ih =>
    intro c hc
    rw [collapseAux] at hc
    by_cases hp : p a = true
    · rw [if_pos hp, if_pos rfl] at hc
      exact ih c hc
    · rw [if_neg hp] at hc
      have hac : a = c := by simpa using hc
      subst hac
      simpa using hp

theorem collapseAux_chain (p : Char → Bool) (r : Char) :
    ∀ (l : List Char) (b : Bool),
      List.Chain' (fun x y => ¬(p x = true ∧ p y = true))
        (collapseAux p r b l) := by
  intro l
  induction l with
  | nil => intro b; simp [collapseAux]
  | cons a as ih =>
    intro b
    rw [collapseAux]
    by_cases hp : p a = true
    · rw [if_pos hp]
      cases b with
      | true => rw [if_pos rfl]; exact ih true
      | false =>
        rw [if_neg (by simp)]
        refine List.chain'_cons'.2 ⟨?_, ih true⟩
        intro y hy hcontra
        have hyp := collapseAux_true_head p r as y hy
        rw [hyp] at hcontra
        exact Bool.false_ne_true hcontra.2
    · rw [if_neg hp]
      refine List.chain'_cons'.2 ⟨?_, ih false⟩
      intro y _ hcontra
      exact hp hcontra.1

theorem collapseAux_id (p : Char → Bool) (r : Char) :
    ∀ (l : List Char) (b : Bool),
      (b = false ∨ ∀ c, l.head? = some c → p c = false) →
      List.Chain' (fun x y => ¬(p x = true ∧ p y = true)) l →
      (∀ c ∈ l, p c = true → c = r) →
      collapseAux p r b l = l := by
  intro l
  induction l with
  | nil => intro b _ _ _; cases b <;> rfl
  | cons a as ih =>
    intro b hb hchain hsat
    have htail : ∀ c ∈ as, p c = true → c = r :=
      fun c hc hpc => hsat c (List.mem_cons_of_mem _ hc) hpc
    have hchainTail : List.Chain' (fun x y => ¬(p x = true ∧ p y = true)) as :=
      (List.chain'_cons'.1 hchain).2
    rw [collapseAux]
    by_cases hp : p a = true
    · have hb2 : b = false := by
        rcases hb with h | h
        · exact h
        · exact absurd hp (by simp [h a rfl])
      subst hb2
      rw [if_pos hp, if_neg (by simp)]
      have ha : a = r := hsat a (List.mem_cons_self a as) hp
      rw [ha]
      have hhead : ∀ c, as.head? = some c → p c = false := by
        intro c hc
        have hR := (List.chain'_cons'.1 hchain).1 c hc
        by_contra hcc
        exact hR ⟨hp, by simpa using hcc⟩
      exact congrArg (r :: ·) (ih true (Or.inr hhead) hchainTail htail)
    · rw [if_neg hp]
      exact congrArg (a :: ·) (ih false (Or.inl rfl) hchainTail htail)

/-! ## Trim lemmas -/

theorem dropWhile_head_not (q : Char → Bool) (l : List Char) :
    ∀ c, (l.dropWhile q).head? = some c → q c = false := by
  induction l with
  | nil => intro c hc; simp at hc
  | cons a as ih =>
    intro c hc
    rw [List.dropWhile_cons] at hc
    by_cases hq : q a = true
    · rw [if_pos hq] at hc
      exact ih c hc
    · rw [if_neg hq] at hc
      have hac : a = c := by simpa using hc
      subst hac
      simpa using hq

theorem dropWhile_id_of_head (q : Char → Bool) (l : List Char)
    (h : ∀ c, l.head? = some c → q c = false) : l.dropWhile q = l := by
  cases l with
  | nil => rfl
  | cons a as =>
    rw [List.dropWhile_cons, if_neg (by simp [h a rfl])]

theorem trimData_as_front (l : List Char) :
    ∃ t, l.dropWhile isJsSpaceCh = trimData l ++ t := by
  obtain ⟨t, ht⟩ :=
    List.dropWhile_suffix (l := (l.dropWhile isJsSpaceCh).reverse) isJsSpaceCh
  refine ⟨t.reverse, ?_⟩
  rw [trimData]
  have h2 := congrArg List.reverse ht
  rw [List.reverse_append, List.reverse_reverse] at h2
  exact h2.symm

theorem trimData_head (l : List Char) :
    ∀ c, (trimData l).head? = some c → isJsSpaceCh c = false := by
  intro c hc
  obtain ⟨t, ht⟩ := trimData_as_front l
  have hh : (l.dropWhile isJsSpaceCh).head? = some c := by
    rw [ht]
    cases htd : trimData l with
    | nil => rw [htd] at hc; simp at hc
    | cons x xs =>
      rw [htd] at hc
      have hxc : x = c := by simpa using hc
      subst hxc
      simp
  exact dropWhile_head_not _ l c hh

theorem trimData_getLast (l : List Char) :
    ∀ c, (trimData l).getLast? = some c → isJsSpaceCh c = false := by
  intro c hc
  rw [trimData, List.getLast?_reverse] at hc
  exact dropWhile_head_not _ _ c hc

theorem trimData_mem (l : List Char) : ∀ c ∈ trimData l, c ∈ l := by
  intro c hc
  rw [trimData] at hc
  have h1 := List.mem_reverse.1 hc
  have h2 := (List.dropWhile_sublist _).mem h1
  have h3 := List.mem_reverse.1 h2
  exact (List.dropWhile_sublist _).mem h3

theorem chain'_dropWhile {R : Char → Char → Prop} (q : Char → Bool)
    (l : List Char) (h : List.Chain' R l) : List.Chain' R (l.dropWhile q) := by
  induction l with
  | nil => simp
  | cons a as ih =>
    rw [List.dropWhile_cons]
    by_cases hq : q a = true
    · rw [if_pos hq]
      exact ih (List.chain'_cons'.1 h).2
    · rw [if_neg hq]
      exact h

theorem trimData_chain (p : Char → Bool) (l : List Char)
    (h : List.Chain' (fun x y => ¬(p x = true ∧ p y = true)) l) :
    List.Chain' (fun x y => ¬(p x = true ∧ p y = true)) (trimData l) := by
  have hsymm : ∀ m : List Char,
      List.Chain' (fun x y => ¬(p x = true ∧ p y = true)) m →
      List.Chain' (fun x y => ¬(p x = true ∧ p y = true)) m.reverse := by
    intro m hm
    rw [List.chain'_reverse]
    exact hm.imp (fun a b hab hba => hab ⟨hba.2, hba.1⟩)
  exact hsymm _ (chain'_dropWhile _ _ (hsymm _ (chain'_dropWhile _ _ h)))
/-- Lower-casing never yields an ASCII upper-case letter. -/
theorem toLower_not_upper (a : Char) : isAsciiUpperCh a.toLower = false := by
  simp only [Char.toLower]
  by_cases h : a.toNat ≥ 65 ∧ a.toNat ≤ 90
  · rw [if_pos h]
    have hv : (a.toNat + 32).isValidChar := Or.inl (by omega)
    apply upper_false_of
    rw [chOfNatToNat _ hv]
    omega
  · rw [if_neg h]
    apply upper_false_of
    omega

/-! ## The formatted-output invariant -/

theorem formatSeedPhrase_tame (s : String) :
    (∀ c ∈ (formatSeedPhrase s).data, tameCh c = true) ∧
    List.Chain' (fun x y => ¬(isJsSpaceCh x = true ∧ isJsSpaceCh y = true))
      (formatSeedPhrase s).data ∧
    (∀ c, (formatSeedPhrase s).data.head? = some c → isJsSpaceCh c = false) ∧
    (∀ c, (formatSeedPhrase s).data.getLast? = some c →
      isJsSpaceCh c = false) := by
  by_cases hs : s = ""
  · subst hs
    refine ⟨?_, ?_, ?_, ?_⟩ <;> simp [formatSeedPhrase]
  · rw [formatSeedPhrase, if_neg hs]
    refine ⟨?_, ?_, ?_, ?_⟩
    · intro c hc
      have h1 : c ∈ collapseRuns isJsSpaceCh ' '
          (collapseRuns (fun c => !(isAlnumCh c)) ' '
            (s.data.map Char.toLower)) := trimData_mem _ c hc
      rcases collapseAux_mem _ _ _ false c h1 with h2 | ⟨h2, _⟩
      · subst h2
        decide
      · rcases collapseAux_mem _ _ _ false c h2 with h3 | ⟨h3, h4⟩
        · subst h3
          decide
        · have halnum : isAlnumCh c = true := by simpa using h4
          obtain ⟨a, _, ha2⟩ := List.mem_map.1 h3
          have hupper : isAsciiUpperCh c = false := by
            rw [← ha2]
            exact toLower_not_upper a
          have hr := alnum_toNat halnum
          have hu : ¬(65 ≤ c.toNat ∧ c.toNat ≤ 90) := by
            intro hcon
            have hup : isAsciiUpperCh c = true := by
              simp [isAsciiUpperCh]
              omega
            rw [hup] at hupper
            exact Bool.noConfusion hupper
          simp [tameCh, isAsciiLowerCh, isDigitCh]
          omega
    · exact trimData_chain _ _ (collapseAux_chain _ _ _ false)
    · exact fun c hc => trimData_head _ c hc
    · exact fun c hc => trimData_getLast _ c hc

/-- Chain transfer along a pointwise condition on the listed characters. -/
theorem chain_imp_mem {R S : Char → Char → Prop} {q : Char → Bool} :
    ∀ l : List Char, (∀ c ∈ l, q c = true) →
      (∀ a b, q a = true → q b = true → R a b → S a b) →
      List.Chain' R l → List.Chain' S l := by
  intro l
  induction l with
  | nil => intro _ _ _; simp
  | cons a as ih =>
    intro hq himp hch
    refine List.chain'_cons'.2
      ⟨?_, ih (fun c hc => hq c (List.mem_cons_of_mem _ hc)) himp
        (List.chain'_cons'.1 hch).2⟩
    intro y hy
    have hys : y ∈ as := by
      cases as with
      | nil => simp at hy
      | cons z zs =>
        have hzy : z = y := by simpa using hy
        subst hzy
        exact List.mem_cons_self z zs
    exact himp a y (hq a (List.mem_cons_self a as))
      (hq y (List.mem_cons_of_mem _ hys)) ((List.chain'_cons'.1 hch).1 y hy)

/-- Formatting fixes any string already in formatted shape. -/
theorem format_fixed (t : String)
    (htame : ∀ c ∈ t.data, tameCh c = true)
    (hchain : List.Chain' (fun x y => ¬(isJsSpaceCh x = true ∧
      isJsSpaceCh y = true)) t.data)
    (hhead : ∀ c, t.data.head? = some c → isJsSpaceCh c = false)
    (hlast : ∀ c, t.data.getLast? = some c → isJsSpaceCh c = false) :
    formatSeedPhrase t = t := by
  by_cases ht : t = ""
  · subst ht
    rfl
  · rw [formatSeedPhrase, if_neg ht]
    have h1 : t.data.map Char.toLower = t.data := by
      rw [show t.data.map Char.toLower = t.data.map id from
        List.map_congr_left (fun a ha => tame_toLower_fixed (htame a ha))]
      exact List.map_id t.data
    rw [h1]
    have hblank : ∀ c ∈ t.data, (fun c => !(isAlnumCh c)) c = true → c = ' ' := by
      intro c hc hpc
      exact tame_nonalnum_blank (htame c hc) (by simpa using hpc)
    have hchainAlnum : List.Chain' (fun x y =>
        ¬((fun c => !(isAlnumCh c)) x = true ∧
          (fun c => !(isAlnumCh c)) y = true)) t.data := by
      refine chain_imp_mem t.data htame ?_ hchain
      intro a b hqa hqb hab hcon
      have ha3 := tame_nonalnum_blank hqa (by simpa using hcon.1)
      have hb3 := tame_nonalnum_blank hqb (by simpa using hcon.2)
      subst ha3
      subst hb3
      exact hab ⟨space_blank_is_space, space_blank_is_space⟩
    have h2 : collapseRuns (fun c => !(isAlnumCh c)) ' ' t.data = t.data :=
      collapseAux_id _ _ t.data false (Or.inl rfl) hchainAlnum hblank
    rw [h2]
    have h3 : collapseRuns isJsSpaceCh ' ' t.data = t.data :=
      collapseAux_id _ _ t.data false (Or.inl rfl) hchain
        (fun c hc hpc => tame_space_blank (htame c hc) hpc)
    rw [h3]
    have h4 : trimData t.data = t.data := by
      rw [trimData]
      rw [dropWhile_id_of_head _ _ hhead]
      rw [dropWhile_id_of_head _ _ (fun c hc =>
        hlast c (by rwa [List.head?_reverse] at hc))]
      exact List.reverse_reverse t.data
    rw [h4]
/-- C6: for every input, the formatted seed phrase — the lower-cased input
with every maximal run of non-word characters collapsed to a single space and
the ends trimmed, which is the definition of formatSeedPhrase — contains only
lower-case ASCII letters, digits and single spaces: no upper-case letter, no
two consecutive spaces, and no leading or trailing space. -/
theorem c6_format_normal_form (s : String) :
    (∀ c ∈ (formatSeedPhrase s).data, tameCh c = true) ∧
    (∀ c ∈ (formatSeedPhrase s).data, isAsciiUpperCh c = false) ∧
    List.Chain' (fun x y => ¬(x = ' ' ∧ y = ' ')) (formatSeedPhrase s).data ∧
    (formatSeedPhrase s).data.head? ≠ some ' ' ∧
    (formatSeedPhrase s).data.getLast? ≠ some ' ' := by
  obtain ⟨htame, hchain, hhead, hlast⟩ := formatSeedPhrase_tame s
  refine ⟨htame, ?_, ?_, ?_, ?_⟩
  · exact fun c hc => tame_not_upper (htame c hc)
  · refine hchain.imp ?_
    intro a b hab hcon
    refine hab ⟨?_, ?_⟩
    · rw [hcon.1]
      exact space_blank_is_space
    · rw [hcon.2]
      exact space_blank_is_space
  · intro hcon
    have h2 := hhead ' ' hcon
    rw [space_blank_is_space] at h2
    exact Bool.noConfusion h2
  · intro hcon
    have h2 := hlast ' ' hcon
    rw [space_blank_is_space] at h2
    exact Bool.noConfusion h2

/-- C9: the mnemonic formatting operation is idempotent. -/
theorem c9_format_idempotent (s : String) :
    formatSeedPhrase (formatSeedPhrase s) = formatSeedPhrase s := by
  obtain ⟨htame, hchain, hhead, hlast⟩ := formatSeedPhrase_tame s
  exact format_fixed _ htame hchain hhead hlast

/-- On underscore-free input the run-collapsing replace of formatSeedPhrase
coincides with the character replace plus white-space collapse of
formatMnemonic. -/
theorem collapse_vs_punct (l : List Char) (hl : '_' ∉ l) :
    ∀ b, collapseAux (fun c => !(isAlnumCh c)) ' ' b l =
      collapseAux isJsSpaceCh ' ' b
        (l.map (fun c => if !(isWordCh c) && !(isJsSpaceCh c) then ' '
          else c)) := by
  induction l with
  | nil => intro b; rfl
  | cons a as ih =>
    intro b
    have hne : a ≠ '_' := fun h => hl (h ▸ List.mem_cons_self a as)
    have hl2 : '_' ∉ as := fun h => hl (List.mem_cons_of_mem _ h)
    rw [List.map_cons]
    by_cases hw : isAlnumCh a = true
    · have hword : isWordCh a = true := alnum_word hw
      have hspace : isJsSpaceCh a = false := alnum_not_space hw
      rw [collapseAux, collapseAux]
      rw [if_neg (by simp [hw]), show
        (if !(isWordCh a) && !(isJsSpaceCh a) then ' ' else a) = a from
          by rw [hword]; simp, if_neg (by simp [hspace])]
      exact congrArg (a :: ·) (ih hl2 false)
    · by_cases hsp : isJsSpaceCh a = true
      · rw [collapseAux, collapseAux]
        rw [show (if !(isWordCh a) && !(isJsSpaceCh a) then ' ' else a) = a from
          by rw [hsp]; simp]
        rw [if_pos (by simp [hw]), if_pos hsp]
        cases b with
        | true => exact ih hl2 true
        | false =>
          rw [if_neg (by simp), if_neg (by simp)]
          exact congrArg (' ' :: ·) (ih hl2 true)
      · have hword : isWordCh a = false :=
          nonword_of_nonalnum (by simpa using hw) hne
        rw [collapseAux, collapseAux]
        rw [show (if !(isWordCh a) && !(isJsSpaceCh a) then ' ' else a) = ' '
          from by rw [hword, (by simpa using hsp : isJsSpaceCh a = false)]; simp]
        rw [if_pos (by simp [hw]), if_pos space_blank_is_space]
        cases b with
        | true => exact ih hl2 true
        | false =>
          rw [if_neg (by simp), if_neg (by simp)]
          exact congrArg (' ' :: ·) (ih hl2 true)

/-- Lower-casing cannot produce an underscore. -/
theorem lower_no_underscore {l : List Char} (h : '_' ∉ l) :
    '_' ∉ l.map Char.toLower := by
  intro hcon
  obtain ⟨a, ha, ha2⟩ := List.mem_map.1 hcon
  have haeq : a = '_' := by
    by_cases hr : 65 ≤ a.toNat ∧ a.toNat ≤ 90
    · exfalso
      have hv : (a.toNat + 32).isValidChar := Or.inl (by omega)
      have h3 : a.toLower.toNat = a.toNat + 32 := by
        simp only [Char.toLower]
        rw [if_pos (by omega), chOfNatToNat _ hv]
      rw [ha2, underscore_toNat] at h3
      omega
    · rwa [toLowerEqSelf a hr] at ha2
  exact h (haeq ▸ ha)

/-- C10 (amended): on every input containing no underscore the two
normalizations agree exactly; they differ on underscores, which
formatSeedPhrase collapses into spaces while the basic step of formatMnemonic
preserves them as word characters. -/
theorem c10_two_formatters_agree (s : String) (h : '_' ∉ s.data) :
    formatSeedPhrase s = formatMnemonicBasic s := by
  by_cases hs : s = ""
  · subst hs
    rfl
  · rw [formatSeedPhrase, if_neg hs, formatMnemonicBasic]
    have h0 := lower_no_underscore h
    have hid : collapseRuns isJsSpaceCh ' '
        (collapseRuns (fun c => !(isAlnumCh c)) ' '
          (s.data.map Char.toLower)) =
        collapseRuns (fun c => !(isAlnumCh c)) ' '
          (s.data.map Char.toLower) := by
      apply collapseAux_id _ _ _ false (Or.inl rfl)
      · refine (collapseAux_chain (fun c => !(isAlnumCh c)) ' '
          (s.data.map Char.toLower) false).imp ?_
        intro a b hab hcon
        refine hab ⟨?_, ?_⟩
        · simp [space_not_alnum hcon.1]
        · simp [space_not_alnum hcon.2]
      · intro c hc hpc
        rcases collapseAux_mem _ _ _ false c hc with h2 | ⟨_, h3⟩
        · exact h2
        · exfalso
          have h4 : isAlnumCh c = true := by simpa using h3
          rw [alnum_not_space h4] at hpc
          exact Bool.noConfusion hpc
    rw [hid, collapseRuns, collapseRuns, collapse_vs_punct _ h0 false]

/-- Witness for C10 at a concrete underscore-free input. -/
theorem c10_two_formatters_agree_witness :
    ('_' ∉ ("  Hello,,  WORLD  x!! " : String).data) ∧
    formatSeedPhrase "  Hello,,  WORLD  x!! " =
      formatMnemonicBasic "  Hello,,  WORLD  x!! " :=
  ⟨by decide, c10_two_formatters_agree "  Hello,,  WORLD  x!! " (by decide)⟩

/-- C10 counterexample: on the input a_b the two normalizations disagree —
formatSeedPhrase turns the underscore into a space while the basic step of
formatMnemonic keeps it. -/
theorem c10_cex_underscore : formatSeedPhrase "a_b" ≠ formatMnemonicBasic "a_b"
    := by decide
/-! ## Base64 round trip -/

theorem charVal_b64Char : ∀ v < 64, b64CharVal (b64Char v) = some v := by decide

theorem ws_b64Char : ∀ v < 64, isB64AsciiWs (b64Char v) = false := by decide

theorem ne_pad_b64Char : ∀ v < 64, b64Char v ≠ '=' := by decide

theorem bytesToSextets_lt : ∀ l : List Nat, (∀ x ∈ l, x < 256) →
    ∀ v ∈ bytesToSextets l, v < 64
  | [], _ => by simp [bytesToSextets]
  | [x], h => by
    have hx := h x (by simp)
    intro v hv
    simp [bytesToSextets] at hv
    rcases hv with rfl | rfl <;> omega
  | [x, y], h => by
    have hx := h x (by simp)
    have hy := h y (by simp)
    intro v hv
    simp [bytesToSextets] at hv
    rcases hv with rfl | rfl | rfl <;> omega
  | x :: y :: z :: rest, h => by
    have hx := h x (by simp)
    have hy := h y (by simp)
    have hz := h z (by simp)
    intro v hv
    simp only [bytesToSextets, List.mem_cons] at hv
    rcases hv with rfl | rfl | rfl | rfl | hv
    · omega
    · omega
    · omega
    · omega
    · exact bytesToSextets_lt rest
        (fun w hw => h w (by simp [hw])) v hv

theorem sextets_bytes_id : ∀ l : List Nat, (∀ x ∈ l, x < 256) →
    sextetsToBytes (bytesToSextets l) = l
  | [], _ => rfl
  | [x], h => by
    have hx := h x (by simp)
    simp only [bytesToSextets, sextetsToBytes]
    congr 1
    omega
  | [x, y], h => by
    have hx := h x (by simp)
    have hy := h y (by simp)
    simp only [bytesToSextets, sextetsToBytes]
    congr 1
    · omega
    · congr 1
      omega
  | x :: y :: z :: rest, h => by
    have hx := h x (by simp)
    have hy := h y (by simp)
    have hz := h z (by simp)
    simp only [bytesToSextets, sextetsToBytes]
    congr 1
    · omega
    · congr 1
      · omega
      · congr 1
        · omega
        · exact sextets_bytes_id rest (fun w hw => h w (by simp [hw]))

theorem charsToSextets_map : ∀ vs : List Nat, (∀ v ∈ vs, v < 64) →
    charsToSextets (vs.map b64Char) = some vs
  | [], _ => rfl
  | v :: vs, h => by
    rw [List.map_cons, charsToSextets,
      charVal_b64Char v (h v (by simp)),
      charsToSextets_map vs (fun w hw => h w (by simp [hw]))]

theorem bytesToSextets_length : ∀ l : List Nat,
    (bytesToSextets l).length = l.length / 3 * 4 + l.length % 3 +
      (if l.length % 3 = 0 then 0 else 1)
  | [] => rfl
  | [_] => by norm_num [bytesToSextets]
  | [_, _] => by norm_num [bytesToSextets]
  | x :: y :: z :: rest => by
    have hlen : (x :: y :: z :: rest).length = rest.length + 3 := by simp
    have ih := bytesToSextets_length rest
    simp only [bytesToSextets, List.length_cons] at ih ⊢
    by_cases h3 : rest.length % 3 = 0
    · rw [ih, if_pos h3, if_pos (by omega)]
      omega
    · rw [ih, if_neg h3, if_neg (by omega)]
      omega

theorem getLast?_mem_chars : ∀ (l : List Char) (c : Char),
    l.getLast? = some c → c ∈ l := by
  intro l
  induction l with
  | nil => intro c hc; simp at hc
  | cons a as ih =>
    intro c hc
    cases as with
    | nil =>
      have hac : a = c := by simpa using hc
      subst hac
      exact List.mem_cons_self a []
    | cons b bs =>
      rw [List.getLast?_cons_cons] at hc
      exact List.mem_cons_of_mem _ (ih c hc)

theorem stripPadding_no_pad (core : List Char) (h4 : core.length % 4 = 0)
    (hne : ∀ c ∈ core, c ≠ '=') : stripPadding core = core := by
  rw [stripPadding, if_pos h4]
  cases hlast : core.getLast? with
  | none => rw [if_neg (by simp [hlast])]
  | some c =>
    have hcne := hne c (getLast?_mem_chars core c hlast)
    rw [if_neg (by simp [hlast]; exact hcne)]

theorem stripPadding_one_pad (core : List Char)
    (h4 : (core ++ ['=']).length % 4 = 0)
    (hne : ∀ c ∈ core, c ≠ '=') : stripPadding (core ++ ['=']) = core := by
  rw [stripPadding, if_pos h4]
  rw [if_pos (by rw [List.getLast?_concat])]
  rw [List.dropLast_concat]
  cases hlast : core.getLast? with
  | none => rw [if_neg (by simp [hlast])]
  | some c =>
    have hcne := hne c (getLast?_mem_chars core c hlast)
    rw [if_neg (by simp [hlast]; exact hcne)]

theorem stripPadding_two_pad (core : List Char)
    (h4 : (core ++ ['=', '=']).length % 4 = 0) :
    stripPadding (core ++ ['=', '=']) = core := by
  have hsplit : core ++ ['=', '='] = (core ++ ['=']) ++ ['='] := by
    simp
  rw [stripPadding, if_pos h4, hsplit]
  rw [if_pos (by rw [List.getLast?_concat])]
  rw [List.dropLast_concat]
  rw [if_pos (by rw [List.getLast?_concat])]
  rw [List.dropLast_concat]
/-- The forgiving decode inverts the encode on byte lists. -/
theorem atob_btoa (l : List Nat) (h : ∀ x ∈ l, x < 256) :
    atob (btoa l) = some l := by
  have hS := bytesToSextets_lt l h
  have hdata : (btoa l).data = (bytesToSextets l).map b64Char ++
      (if l.length % 3 = 1 then "==" else
        if l.length % 3 = 2 then "=" else "").data := by
    rw [btoa, strDataAppend]
  have hfilter : ((btoa l).data.filter (fun c => !(isB64AsciiWs c))) =
      (btoa l).data := by
    rw [List.filter_eq_self]
    intro c hc
    rw [hdata] at hc
    rcases List.mem_append.1 hc with hc | hc
    · obtain ⟨v, hv, hveq⟩ := List.mem_map.1 hc
      rw [← hveq, ws_b64Char v (hS v hv)]
      rfl
    · have hce : c = '=' := by
        by_cases h1 : l.length % 3 = 1
        · rw [if_pos h1] at hc
          rcases (by simpa using hc : c = '=' ∨ c = '=') with rfl | rfl <;> rfl
        · rw [if_neg h1] at hc
          by_cases h2 : l.length % 3 = 2
          · rw [if_pos h2] at hc
            simpa using hc
          · rw [if_neg h2] at hc
            simp at hc
      subst hce
      decide
  have hlen := bytesToSextets_length l
  have hmap_ne : ∀ c ∈ (bytesToSextets l).map b64Char, c ≠ '=' := by
    intro c hc
    obtain ⟨v, hv, hveq⟩ := List.mem_map.1 hc
    rw [← hveq]
    exact ne_pad_b64Char v (hS v hv)
  rw [atob, hfilter, hdata]
  by_cases h1 : l.length % 3 = 1
  · rw [if_pos h1]
    have hstrip : stripPadding ((bytesToSextets l).map b64Char ++
        ("==" : String).data) = (bytesToSextets l).map b64Char := by
      have hpd : ("==" : String).data = ['=', '='] := rfl
      rw [hpd]
      apply stripPadding_two_pad
      rw [if_neg (by omega)] at hlen
      simp [hlen]
      omega
    rw [hstrip]
    rw [if_neg (by
      rw [List.length_map]
      rw [if_neg (by omega)] at hlen
      omega)]
    rw [charsToSextets_map _ hS]
    show some (sextetsToBytes (bytesToSextets l)) = some l
    rw [sextets_bytes_id l h]
  · rw [if_neg h1]
    by_cases h2 : l.length % 3 = 2
    · rw [if_pos h2]
      have hstrip : stripPadding ((bytesToSextets l).map b64Char ++
          ("=" : String).data) = (bytesToSextets l).map b64Char := by
        have hpd : ("=" : String).data = ['='] := rfl
        rw [hpd]
        apply stripPadding_one_pad
        · rw [if_neg (by omega)] at hlen
          simp [hlen]
          omega
        · exact hmap_ne
      rw [hstrip]
      rw [if_neg (by
        rw [List.length_map]
        rw [if_neg (by omega)] at hlen
        omega)]
      rw [charsToSextets_map _ hS]
      show some (sextetsToBytes (bytesToSextets l)) = some l
      rw [sextets_bytes_id l h]
    · rw [if_neg h2]
      have hpd : ("" : String).data = [] := rfl
      rw [hpd, List.append_nil]
      have hstrip : stripPadding ((bytesToSextets l).map b64Char) =
          (bytesToSextets l).map b64Char := by
        apply stripPadding_no_pad
        · rw [if_pos (by omega)] at hlen
          rw [List.length_map, hlen]
          omega
        · exact hmap_ne
      rw [hstrip]
      rw [if_neg (by
        rw [List.length_map]
        rw [if_pos (by omega)] at hlen
        omega)]
      rw [charsToSextets_map _ hS]
      show some (sextetsToBytes (bytesToSextets l)) = some l
      rw [sextets_bytes_id l h]
/-- Restoring a string from its model bytes. -/
theorem bytesToStr_strToBytes (m : String) : bytesToStr (strToBytes m) = m := by
  rw [bytesToStr, strToBytes, List.map_map]
  have h : m.data.map (Char.ofNat ∘ Char.toNat) = m.data.map id :=
    List.map_congr_left (fun a _ => Char.ofNat_toNat a)
  rw [h, List.map_id]

/-- C1 (spec-modelled): for every deterministic key-derivation function and
every correct byte-valued AEAD with 16-byte tags — the properties the spec
requires of PBKDF2 and AES-256-GCM — encrypting a valid BIP39 mnemonic (a
byte-rangeable string, as all mnemonics are) with any fresh 16-byte salt and
12-byte nonce, a non-empty passphrase and any password, and then decrypting
the produced base64 container with the same secrets, returns the original
mnemonic. -/
theorem c1_round_trip
    (kdf : List Nat → List Nat → Nat → List Nat)
    (aeadEnc : List Nat → List Nat → List Nat → List Nat × List Nat)
    (aeadDec : List Nat → List Nat → List Nat → List Nat → Option (List Nat))
    (hdec : ∀ k n p, aeadDec k n (aeadEnc k n p).1 (aeadEnc k n p).2 = some p)
    (htag : ∀ k n p, (aeadEnc k n p).2.length = 16)
    (hbytes : ∀ k n p, (∀ x ∈ p, x < 256) →
      (∀ x ∈ (aeadEnc k n p).1, x < 256) ∧ (∀ x ∈ (aeadEnc k n p).2, x < 256))
    (m passphrase password : String) (salt nonce : List Nat)
    (hm : (validateSeedPhraseStructure bip39Words m).isValid = true)
    (hpp : passphrase ≠ "")
    (hmb : ∀ c ∈ m.data, c.toNat < 256)
    (hsalt : salt.length = 16) (hsaltB : ∀ x ∈ salt, x < 256)
    (hnonce : nonce.length = 12) (hnonceB : ∀ x ∈ nonce, x < 256) :
    ∃ blob, encryptSeedPhrase kdf aeadEnc salt nonce m passphrase password =
        some blob ∧
      decryptContent kdf aeadDec blob passphrase password = some m := by
  have hpbytes : ∀ x ∈ strToBytes m, x < 256 := by
    intro x hx
    obtain ⟨c, hc, hceq⟩ := List.mem_map.1 hx
    rw [← hceq]
    exact hmb c hc
  obtain ⟨hctB, htagB⟩ :=
    hbytes (kdf (combineSecrets passphrase password) salt 100000) nonce
      (strToBytes m) hpbytes
  have htagL := htag (kdf (combineSecrets passphrase password) salt 100000)
    nonce (strToBytes m)
  refine ⟨btoa (salt ++ nonce ++
    (aeadEnc (kdf (combineSecrets passphrase password) salt 100000) nonce
      (strToBytes m)).1 ++
    (aeadEnc (kdf (combineSecrets passphrase password) salt 100000) nonce
      (strToBytes m)).2), ?_, ?_⟩
  · rw [encryptSeedPhrase, if_pos hm]
  · have hall : ∀ x ∈ salt ++ nonce ++
        (aeadEnc (kdf (combineSecrets passphrase password) salt 100000) nonce
          (strToBytes m)).1 ++
        (aeadEnc (kdf (combineSecrets passphrase password) salt 100000) nonce
          (strToBytes m)).2, x < 256 := by
      intro x hx
      rcases List.mem_append.1 hx with hx | hx
      · rcases List.mem_append.1 hx with hx | hx
        · rcases List.mem_append.1 hx with hx | hx
          · exact hsaltB x hx
          · exact hnonceB x hx
        · exact hctB x hx
      · exact htagB x hx
    simp only [decryptContent, atob_btoa _ hall]
    have hL : (salt ++ nonce ++
        (aeadEnc (kdf (combineSecrets passphrase password) salt 100000) nonce
          (strToBytes m)).1 ++
        (aeadEnc (kdf (combineSecrets passphrase password) salt 100000) nonce
          (strToBytes m)).2).length = 44 +
        (aeadEnc (kdf (combineSecrets passphrase password) salt 100000) nonce
          (strToBytes m)).1.length := by
      simp [hsalt, hnonce, htagL]
      omega
    rw [if_neg (by omega)]
    have htake16 : (salt ++ nonce ++
        (aeadEnc (kdf (combineSecrets passphrase password) salt 100000) nonce
          (strToBytes m)).1 ++
        (aeadEnc (kdf (combineSecrets passphrase password) salt 100000) nonce
          (strToBytes m)).2).take 16 = salt := by
      rw [List.append_assoc, List.append_assoc, List.take_left' hsalt]
    have hdrop16 : (salt ++ nonce ++
        (aeadEnc (kdf (combineSecrets passphrase password) salt 100000) nonce
          (strToBytes m)).1 ++
        (aeadEnc (kdf (combineSecrets passphrase password) salt 100000) nonce
          (strToBytes m)).2).drop 16 = nonce ++
        ((aeadEnc (kdf (combineSecrets passphrase password) salt 100000) nonce
          (strToBytes m)).1 ++
        (aeadEnc (kdf (combineSecrets passphrase password) salt 100000) nonce
          (strToBytes m)).2) := by
      rw [List.append_assoc, List.append_assoc, List.drop_left' hsalt]
    have hdrop28 : (salt ++ nonce ++
        (aeadEnc (kdf (combineSecrets passphrase password) salt 100000) nonce
          (strToBytes m)).1 ++
        (aeadEnc (kdf (combineSecrets passphrase password) salt 100000) nonce
          (strToBytes m)).2).drop 28 =
        (aeadEnc (kdf (combineSecrets passphrase password) salt 100000) nonce
          (strToBytes m)).1 ++
        (aeadEnc (kdf (combineSecrets passphrase password) salt 100000) nonce
          (strToBytes m)).2 := by
      rw [List.append_assoc]
      exact List.drop_left' (by simp [hsalt, hnonce])
    have hdropTag : (salt ++ nonce ++
        (aeadEnc (kdf (combineSecrets passphrase password) salt 100000) nonce
          (strToBytes m)).1 ++
        (aeadEnc (kdf (combineSecrets passphrase password) salt 100000) nonce
          (strToBytes m)).2).drop ((salt ++ nonce ++
        (aeadEnc (kdf (combineSecrets passphrase password) salt 100000) nonce
          (strToBytes m)).1 ++
        (aeadEnc (kdf (combineSecrets passphrase password) salt 100000) nonce
          (strToBytes m)).2).length - 16) =
        (aeadEnc (kdf (combineSecrets passphrase password) salt 100000) nonce
          (strToBytes m)).2 :=
      List.drop_left' (by simp [hsalt, hnonce]; omega)
    rw [htake16, hdrop16, List.take_left' hnonce, hdrop28, hdropTag, hL]
    rw [show 44 + (aeadEnc (kdf (combineSecrets passphrase password) salt
        100000) nonce (strToBytes m)).1.length - 44 =
      (aeadEnc (kdf (combineSecrets passphrase password) salt 100000) nonce
        (strToBytes m)).1.length from by omega]
    rw [List.take_left]
    rw [hdec (kdf (combineSecrets passphrase password) salt 100000) nonce
      (strToBytes m)]
    show some (bytesToStr (strToBytes m)) = some m
    rw [bytesToStr_strToBytes]
set_option maxRecDepth 40000 in
/-- Witness for C1: a trivial correct AEAD and constant KDF at the spec's
example mnemonic and passphrase with the empty password. -/
theorem c1_round_trip_witness :
    ∃ blob,
      encryptSeedPhrase (fun _ _ _ => List.replicate 32 0)
          (fun _ _ pt => (pt, List.replicate 16 0))
          (List.replicate 16 0) (List.replicate 12 0)
          "abandon abandon abandon abandon abandon abandon abandon abandon abandon abandon abandon about"
          "correct horse battery staple orange zebra" "" = some blob ∧
      decryptContent (fun _ _ _ => List.replicate 32 0)
          (fun _ _ ct _ => some ct) blob
          "correct horse battery staple orange zebra" "" =
        some "abandon abandon abandon abandon abandon abandon abandon abandon abandon abandon abandon about" :=
  c1_round_trip (fun _ _ _ => List.replicate 32 0)
    (fun _ _ pt => (pt, List.replicate 16 0))
    (fun _ _ ct _ => some ct)
    (fun _ _ _ => rfl)
    (fun _ _ _ => by simp)
    (fun _ _ p hp => ⟨hp, fun x hx => by rw [List.eq_of_mem_replicate hx]; omega⟩)
    "abandon abandon abandon abandon abandon abandon abandon abandon abandon abandon abandon about"
    "correct horse battery staple orange zebra" ""
    (List.replicate 16 0) (List.replicate 12 0)
    (by decide) (by decide) (by decide)
    (by simp) (fun x hx => by rw [List.eq_of_mem_replicate hx]; omega)
    (by simp) (fun x hx => by rw [List.eq_of_mem_replicate hx]; omega)
